import Mathlib

/-!
Verification development for the Activity Log Aggregator of the
classroom-analytics dashboard (`src/utils/csvParser.ts`).

The TypeScript source is shallowly embedded:
* JS numbers used as counters are `Nat`; `Math.round(a / b)` on nonnegative
  values is half-up rational rounding, embedded as `jsRound`.
* A JS `Map` is an association list in key-insertion order; `Map.set` on a
  present key updates the (unique) matching entry in place.
* `Array.prototype.sort` is stable (ES2019), embedded as a stable insertion
  sort; `localeCompare` on the digit/colon bucket keys is code-point
  lexicographic comparison.
* `new Date(r.timestamp).getHours()/getMinutes()/getSeconds()` are embedded
  as fields of a `Timestamp` structure (JS `Date` parsing itself is
  implementation-defined and out of scope).
* `parseInt`/`parseFloat` results are `Option` values, `none` modelling
  `NaN`; `studentId` is likewise `Option Int` (under the SameValueZero
  equality used by `Map` keys, `NaN` behaves as an ordinary key).
* The loader's `try`/`catch` is an `Except` computation with a catch-all;
  its `console.error` diagnostic is the `Bool` component of the result.
* `record.activity in counts` consults the prototype chain: the inherited
  `Object.prototype` keys are `protoDataKeys` (plus the `"__proto__"`
  accessor), and incrementing one installs an own `NaN` entry that
  `Object.entries` then also emits.
-/

/-- `Math.round (num / den)` for nonnegative operands: half-up rounding,
`floor (num / den + 1 / 2)`. -/
def jsRound (num den : Nat) : Nat := (2 * num + den) / (2 * den)

/-- Does the second char list occur at the head of the first? -/
def startsWithChars : List Char → List Char → Bool
  | _, [] => true
  | [], _ :: _ => false
  | c :: cs, d :: ds => c == d && startsWithChars cs ds

/-- Does the second char list occur anywhere inside the first? -/
def hasSubChars : List Char → List Char → Bool
  | [], needle => startsWithChars [] needle
  | c :: cs, needle => startsWithChars (c :: cs) needle || hasSubChars cs needle

/-- JS `hay.includes(needle)` for strings. -/
def strIncludes (hay needle : String) : Bool := hasSubChars hay.data needle.data

/-- Three-way code-point lexicographic comparison of char lists. -/
def charsCmp : List Char → List Char → Ordering
  | [], [] => Ordering.eq
  | [], _ :: _ => Ordering.lt
  | _ :: _, [] => Ordering.gt
  | c :: cs, d :: ds =>
    if c.toNat < d.toNat then Ordering.lt
    else if d.toNat < c.toNat then Ordering.gt
    else charsCmp cs ds

/-- Code-point lexicographic comparison of strings (the behaviour of
`localeCompare` on the digit/colon bucket-key strings). -/
def strCmp (a b : String) : Ordering := charsCmp a.data b.data

/-- Strict lexicographic order on strings. -/
def strLt (a b : String) : Prop := strCmp a b = Ordering.lt

instance (a b : String) : Decidable (strLt a b) := by
  unfold strLt; infer_instance

/-- JS `String(n).padStart(2, '0')` for a natural number. -/
def pad2 (n : Nat) : String :=
  if (toString n).length < 2 then "0" ++ toString n else toString n

/-- Split a char list at every occurrence of the separator (JS
`String.prototype.split` with a single-character separator; an empty
input yields one empty piece). -/
def splitChars (sep : Char) : List Char → List (List Char)
  | [] => [[]]
  | c :: cs =>
    let r := splitChars sep cs
    if c == sep then [] :: r
    else (c :: r.headD []) :: r.tail

/-- JS `s.split(sep)` for a single-character separator. -/
def jsSplit (s : String) (sep : Char) : List String :=
  (splitChars sep s.data).map String.mk

/-- ASCII whitespace recognised by the trim model. -/
def isWsChar (c : Char) : Bool := c == ' ' || c == '\t' || c == '\n' || c == '\r'

/-- JS `s.trim()` (modelled over ASCII whitespace). -/
def jsTrim (s : String) : String :=
  String.mk (((s.data.dropWhile isWsChar).reverse.dropWhile isWsChar).reverse)

/-- Value of a list of decimal digit characters. -/
def digitsToNat (ds : List Char) : Nat :=
  ds.foldl (fun a c => a * 10 + (c.toNat - '0'.toNat)) 0

/-- Leading run of decimal digits, `none` when there is none. -/
def parseDigits (cs : List Char) : Option Nat :=
  let ds := cs.takeWhile Char.isDigit
  if ds.isEmpty then none else some (digitsToNat ds)

/-- JS `parseInt(s)` modelled for base-10 input: trim, optional sign,
leading digits, `NaN` (= `none`) when no digit is found.  (Hex prefixes and
other exotic forms do not occur in this data and are not modelled.) -/
def parseIntStr (s : String) : Option Int :=
  match (jsTrim s).data with
  | '-' :: cs => (parseDigits cs).map (fun n => -(n : Int))
  | '+' :: cs => (parseDigits cs).map (fun n => (n : Int))
  | cs => (parseDigits cs).map (fun n => (n : Int))

/-- Unsigned decimal with optional fraction part, as a rational. -/
def parseUnsignedFloat (cs : List Char) : Option Rat :=
  let ds := cs.takeWhile Char.isDigit
  match cs.drop ds.length with
  | '.' :: fs =>
    let fds := fs.takeWhile Char.isDigit
    if ds.isEmpty && fds.isEmpty then none
    else some ((digitsToNat ds : Rat) + (digitsToNat fds : Rat) / ((10 : Rat) ^ fds.length))
  | _ => if ds.isEmpty then none else some ((digitsToNat ds : Rat))

/-- JS `parseFloat(s)`: trim, optional sign, digits with optional fraction;
`NaN` (= `none`) when nothing numeric leads.  (Exponent forms do not occur
in this data and are not modelled.) -/
def parseFloatStr (s : String) : Option Rat :=
  match (jsTrim s).data with
  | '-' :: cs => (parseUnsignedFloat cs).map (fun q => -q)
  | '+' :: cs => parseUnsignedFloat cs
  | cs => parseUnsignedFloat cs

/-- `parseInt` applied to a possibly-`undefined` destructured field
(`parseInt(undefined)` is `NaN`). -/
def jsParseInt (o : Option String) : Option Int := o.bind parseIntStr

/-- `parseFloat` applied to a possibly-`undefined` destructured field
(`parseFloat(undefined)` is `NaN`). -/
def jsParseFloat (o : Option String) : Option Rat := o.bind parseFloatStr

/-- The time-of-day view of a record's timestamp: what
`new Date(ts).getHours()/getMinutes()/getSeconds()` return. -/
structure Timestamp where
  hours : Nat
  minutes : Nat
  seconds : Nat
deriving DecidableEq

/-- One observation frame (the `ActivityRecord` interface).  `studentId`
is `Option Int`, `none` modelling a `NaN` id; `confidence` likewise with
`none` for `NaN`. -/
structure ActivityRecord where
  timestamp : Timestamp
  studentId : Option Int
  activity : String
  confidence : Option Rat
deriving DecidableEq

/-- One entry of a student's timeline. -/
structure TimelineEntry where
  time : Timestamp
  behavior : String
  confidence : Option Rat
deriving DecidableEq

/-- The `StudentSummary` interface.  During accumulation the minute fields
hold raw frame counts; `finalizeSummary` converts them. -/
structure StudentSummary where
  studentId : Option Int
  totalMinutes : Nat
  attentiveMinutes : Nat
  inattentiveMinutes : Nat
  sleepingMinutes : Nat
  talkingMinutes : Nat
  phoneMinutes : Nat
  engagementPct : Nat
  timeline : List TimelineEntry
deriving DecidableEq

/-- A record parsed by the loader from one raw CSV line. -/
structure RawRecord where
  timestamp : String
  studentId : Option Int
  activity : String
  confidence : Option Rat
deriving DecidableEq

/-- The timeline entry pushed for a record. -/
def recEntry (r : ActivityRecord) : TimelineEntry :=
  { time := r.timestamp, behavior := r.activity, confidence := r.confidence }

/-- The fresh summary installed when a student id is first seen. -/
def emptySummary (sid : Option Int) : StudentSummary :=
  { studentId := sid, totalMinutes := 0, attentiveMinutes := 0,
    inattentiveMinutes := 0, sleepingMinutes := 0, talkingMinutes := 0,
    phoneMinutes := 0, engagementPct := 0, timeline := [] }

/-- The per-record mutation of a student's summary in
`calculateStudentSummaries`: push the timeline entry, bump the total, then
the attentive / inattentive branch with the sleeping → talking → phone
`else if` chain. -/
def updateSummary (r : ActivityRecord) (s : StudentSummary) : StudentSummary :=
  let s1 := { s with timeline := s.timeline ++ [recEntry r],
                     totalMinutes := s.totalMinutes + 1 }
  if r.activity = "Studying/Attentive" then
    { s1 with attentiveMinutes := s1.attentiveMinutes + 1 }
  else
    let s2 := { s1 with inattentiveMinutes := s1.inattentiveMinutes + 1 }
    if r.activity = "Sleeping" then
      { s2 with sleepingMinutes := s2.sleepingMinutes + 1 }
    else if r.activity = "Talking in Class" then
      { s2 with talkingMinutes := s2.talkingMinutes + 1 }
    else if strIncludes r.activity "Phone" then
      { s2 with phoneMinutes := s2.phoneMinutes + 1 }
    else s2

/-- One step of the record loop over the student `Map`: update the entry of
the record's student in place, or append a freshly initialised one (JS `Map`
keeps keys unique, in insertion order). -/
def insertRecord : List StudentSummary → ActivityRecord → List StudentSummary
  | [], r => [updateSummary r (emptySummary r.studentId)]
  | s :: ss, r =>
    if s.studentId = r.studentId then updateSummary r s :: ss
    else s :: insertRecord ss r

/-- The accumulation phase of `calculateStudentSummaries`: the student map
after the `records.forEach` loop, in key-insertion order. -/
def accumulate (records : List ActivityRecord) : List StudentSummary :=
  records.foldl insertRecord []

/-- The conversion step mapped over `Array.from(studentMap.values())`:
minutes from frame counts via `Math.round(count / 30)`, engagement from the
pre-conversion frame counts via `Math.round(attentive / total * 100)`. -/
def finalizeSummary (s : StudentSummary) : StudentSummary :=
  let totalFrames := s.totalMinutes
  let attentiveFrames := s.attentiveMinutes
  { s with
    totalMinutes := jsRound totalFrames 30,
    attentiveMinutes := jsRound attentiveFrames 30,
    inattentiveMinutes := jsRound s.inattentiveMinutes 30,
    sleepingMinutes := jsRound s.sleepingMinutes 30,
    talkingMinutes := jsRound s.talkingMinutes 30,
    phoneMinutes := jsRound s.phoneMinutes 30,
    engagementPct := jsRound (attentiveFrames * 100) totalFrames }

/-- Stable insertion of one element: `x` goes after every element `t` that
the comparator keeps before it. -/
def insertBy (le : α → α → Bool) (x : α) : List α → List α
  | [] => [x]
  | t :: ts => if le t x then t :: insertBy le x ts else x :: t :: ts

/-- Stable sort (the guaranteed-stable ES2019 `Array.prototype.sort`):
its result is determined by the comparator's total preorder together with
stability, so any stable sort embeds it. -/
def sortBy (le : α → α → Bool) (l : List α) : List α :=
  l.foldl (fun acc x => insertBy le x acc) []

/-- The comparator `(a, b) => b.engagementPct - a.engagementPct` keeps `a`
before `b` iff it returns `<= 0`. -/
def summaryLe (a b : StudentSummary) : Bool :=
  decide (b.engagementPct ≤ a.engagementPct)

/-- `calculateStudentSummaries` from the source: accumulate per student,
convert counts, sort by engagement descending. -/
def calculateStudentSummaries (records : List ActivityRecord) : List StudentSummary :=
  sortBy summaryLe ((accumulate records).map finalizeSummary)

/-- The string-keyed data properties the `counts` object literal inherits
from `Object.prototype` in a standard browser environment.  For a label in
this list, `label in counts` is true via the prototype chain, and
`counts[label]++` reads the inherited function, coerces it to `NaN`, and
installs an own enumerable property `label: NaN` on `counts`.
(`"__proto__"` is also inherited but is an accessor whose setter silently
discards the `NaN` assignment, so it never creates an own entry; it is
handled by its own branch in `breakdownStep`.) -/
def protoDataKeys : List String :=
  ["constructor", "hasOwnProperty", "isPrototypeOf", "propertyIsEnumerable",
   "toLocaleString", "toString", "valueOf", "__defineGetter__",
   "__defineSetter__", "__lookupGetter__", "__lookupSetter__"]

/-- The own properties of `getBehaviorBreakdown`'s `counts` object: the
four literal keys' counters, plus `polluted` — the extra own keys created
by incrementing an inherited `Object.prototype` key, in insertion order,
each holding `NaN`. -/
structure BehaviorCounts where
  attentive : Nat
  talking : Nat
  sleeping : Nat
  phone : Nat
  polluted : List String
deriving DecidableEq

/-- One step of `getBehaviorBreakdown`'s loop.  `record.activity in counts`
is true for the four literal keys, for an own key added by earlier
pollution (its `NaN` value stays `NaN` under `++`), and for every inherited
`Object.prototype` property — incrementing one of those installs an own
`NaN` entry, except for the `"__proto__"` accessor whose setter discards
the assignment.  Only when `in` fails does the `includes('Phone')`
fallback run. -/
def breakdownStep (c : BehaviorCounts) (r : ActivityRecord) : BehaviorCounts :=
  if r.activity = "Studying/Attentive" then { c with attentive := c.attentive + 1 }
  else if r.activity = "Talking in Class" then { c with talking := c.talking + 1 }
  else if r.activity = "Sleeping" then { c with sleeping := c.sleeping + 1 }
  else if r.activity = "Phone" then { c with phone := c.phone + 1 }
  else if r.activity ∈ c.polluted then c
  else if r.activity ∈ protoDataKeys then
    { c with polluted := c.polluted ++ [r.activity] }
  else if r.activity = "__proto__" then c
  else if strIncludes r.activity "Phone" then { c with phone := c.phone + 1 }
  else c

/-- `getBehaviorBreakdown`: fold the counts, then `Object.entries` over the
own enumerable properties in insertion order — the four literal keys first,
then any polluted keys, whose values are `NaN` (`none`). -/
def getBehaviorBreakdown (records : List ActivityRecord) :
    List (String × Option Nat) :=
  let c := records.foldl breakdownStep ⟨0, 0, 0, 0, []⟩
  [("Studying/Attentive", some c.attentive), ("Talking in Class", some c.talking),
   ("Sleeping", some c.sleeping), ("Phone", some c.phone)] ++
    c.polluted.map (fun k => (k, (none : Option Nat)))

/-- The interval key built in `getEngagementOverTime`:
`HH:MM:SS` with the seconds floored to a multiple of the interval. -/
def bucketKey (t : Timestamp) (intervalSeconds : Nat) : String :=
  pad2 t.hours ++ ":" ++ pad2 t.minutes ++ ":" ++
    pad2 (t.seconds / intervalSeconds * intervalSeconds)

/-- One step of `getEngagementOverTime`'s loop on the interval `Map`
(entries are `(key, total, attentive)`). -/
def bumpBucket (k : String) (att : Bool) :
    List (String × Nat × Nat) → List (String × Nat × Nat)
  | [] => [(k, 1, if att then 1 else 0)]
  | b :: bs =>
    if b.1 = k then (b.1, b.2.1 + 1, if att then b.2.2 + 1 else b.2.2) :: bs
    else b :: bumpBucket k att bs

/-- One iteration of `getEngagementOverTime`'s `records.forEach` loop. -/
def bucketStep (intervalSeconds : Nat) (acc : List (String × Nat × Nat))
    (r : ActivityRecord) : List (String × Nat × Nat) :=
  bumpBucket (bucketKey r.timestamp intervalSeconds)
    (decide (r.activity = "Studying/Attentive")) acc

/-- The interval map after `getEngagementOverTime`'s loop, in key-insertion
order. -/
def engagementBuckets (records : List ActivityRecord) (intervalSeconds : Nat) :
    List (String × Nat × Nat) :=
  records.foldl (bucketStep intervalSeconds) []

/-- The `(total, attentive)` counters of an interval-map lookup. -/
def bucketTotals (o : Option (String × Nat × Nat)) : Nat × Nat :=
  match o with
  | some b => (b.2.1, b.2.2)
  | none => (0, 0)

/-- The `(a, b) => a.time.localeCompare(b.time)` comparator keeps `a` before
`b` iff the comparison is not `gt`. -/
def timeLe (p q : String × Nat) : Bool := decide (strCmp p.1 q.1 ≠ Ordering.gt)

/-- `getEngagementOverTime`: fold the interval map, map each entry to its
rounded attentive percentage, sort by key. -/
def getEngagementOverTime (records : List ActivityRecord)
    (intervalSeconds : Nat := 10) : List (String × Nat) :=
  sortBy timeLe
    ((engagementBuckets records intervalSeconds).map
      (fun b => (b.1, jsRound (b.2.2 * 100) b.2.1)))

/-- `loadActivityLog`'s per-line work: destructure
`line.split(',')` into four fields (missing ones are `undefined`) and build
the record.  `activity.trim()` on a missing third field throws a
`TypeError`, embedded as `Except.error`; the first field always exists
because `split` never returns an empty array. -/
def parseLine (line : String) : Except Unit RawRecord :=
  let fields := jsSplit line ','
  match fields.get? 2 with
  | none => Except.error ()
  | some activity =>
    Except.ok
      { timestamp := jsTrim ((fields.get? 0).getD ""),
        studentId := jsParseInt (fields.get? 1),
        activity := jsTrim activity,
        confidence := jsParseFloat (fields.get? 3) }

/-- The loader's record loop: parse the data lines in order; a thrown
`TypeError` aborts the loop. -/
def parseLines : List String → Except Unit (List RawRecord)
  | [] => Except.ok []
  | l :: ls =>
    match parseLine l with
    | Except.error e => Except.error e
    | Except.ok r =>
      match parseLines ls with
      | Except.error e => Except.error e
      | Except.ok rs => Except.ok (r :: rs)

/-- The body of `loadActivityLog` after the text is read:
`text.trim().split('\n')`, skip the header line, parse every data line. -/
def parseActivityLog (text : String) : Except Unit (List RawRecord) :=
  parseLines ((jsSplit (jsTrim text) '\n').drop 1)

/-- `loadActivityLog` over the outcome of the awaited fetch/read
(`Except.error` = the fetch or read failed).  The whole body sits in a
`try`/`catch` whose catch logs a diagnostic and returns `[]`; the `Bool`
result records whether the diagnostic was emitted. -/
def loadActivityLog (fetched : Except Unit String) : List RawRecord × Bool :=
  match fetched with
  | Except.error _ => ([], true)
  | Except.ok text =>
    match parseActivityLog text with
    | Except.ok records => (records, false)
    | Except.error _ => ([], true)

/-- The data lines the loader iterates over. -/
def dataLines (text : String) : List String :=
  (jsSplit (jsTrim text) '\n').drop 1

/-- The record built from a line whose destructured `activity` field exists
(what `parseLine` returns on lines of at least three fields). -/
def mkRecord (line : String) : RawRecord :=
  let fields := jsSplit line ','
  { timestamp := jsTrim ((fields.get? 0).getD ""),
    studentId := jsParseInt (fields.get? 1),
    activity := jsTrim ((fields.get? 2).getD ""),
    confidence := jsParseFloat (fields.get? 3) }

/-- A student's own records, in input order. -/
def studentRecords (records : List ActivityRecord) (sid : Option Int) :
    List ActivityRecord :=
  records.filter (fun r => decide (r.studentId = sid))

/-- A student's total frame count. -/
def frameCount (records : List ActivityRecord) (sid : Option Int) : Nat :=
  (studentRecords records sid).length

/-- A student's attentive frame count. -/
def attentiveFrames (records : List ActivityRecord) (sid : Option Int) : Nat :=
  ((studentRecords records sid).filter
    (fun r => decide (r.activity = "Studying/Attentive"))).length

/-- A student's inattentive frame count. -/
def inattentiveFrames (records : List ActivityRecord) (sid : Option Int) : Nat :=
  ((studentRecords records sid).filter
    (fun r => decide (r.activity ≠ "Studying/Attentive"))).length

/-- A student's sleeping frame count. -/
def sleepingFrames (records : List ActivityRecord) (sid : Option Int) : Nat :=
  ((studentRecords records sid).filter
    (fun r => decide (r.activity = "Sleeping"))).length

/-- A student's talking frame count. -/
def talkingFrames (records : List ActivityRecord) (sid : Option Int) : Nat :=
  ((studentRecords records sid).filter
    (fun r => decide (r.activity = "Talking in Class"))).length

/-- A student's phone frame count: records reaching the
`includes('Phone')` arm of the chain. -/
def phoneFrames (records : List ActivityRecord) (sid : Option Int) : Nat :=
  ((studentRecords records sid).filter
    (fun r => decide (r.activity ≠ "Studying/Attentive" ∧
      r.activity ≠ "Sleeping" ∧ r.activity ≠ "Talking in Class" ∧
      strIncludes r.activity "Phone" = true))).length

/-- The student ids of a record list in first-appearance order, given ids
already seen. -/
def newIds : List ActivityRecord → List (Option Int) → List (Option Int)
  | [], _ => []
  | r :: rs, seen =>
    if r.studentId ∈ seen then newIds rs seen
    else r.studentId :: newIds rs (seen ++ [r.studentId])

/-- Index of the first record of a given student. -/
def firstIdx (records : List ActivityRecord) (sid : Option Int) : Nat :=
  records.findIdx (fun r => decide (r.studentId = sid))

/-- Lookup in the student map. -/
def findSummary (acc : List StudentSummary) (sid : Option Int) :
    Option StudentSummary :=
  acc.find? (fun s => decide (s.studentId = sid))

/-- Replay a list of records into one summary. -/
def applyRecords (s : StudentSummary) (rs : List ActivityRecord) : StudentSummary :=
  rs.foldl (fun s r => updateSummary r s) s

/-- Lookup in the interval map. -/
def findBucket (acc : List (String × Nat × Nat)) (k : String) :
    Option (String × Nat × Nat) :=
  acc.find? (fun b => decide (b.1 = k))

/-- Does a label land in the phone bucket via the substring fallback? -/
def phoneBucketHit (a : String) : Bool :=
  decide (a ≠ "Studying/Attentive" ∧ a ≠ "Talking in Class" ∧ a ≠ "Sleeping")
    && strIncludes a "Phone"

/-- How many breakdown buckets a label increments. -/
def bucketHits (a : String) : Nat :=
  (if a = "Studying/Attentive" then 1 else 0) +
  (if a = "Talking in Class" then 1 else 0) +
  (if a = "Sleeping" then 1 else 0) +
  (if phoneBucketHit a = true then 1 else 0)

/-- Is a label one of the four recognised breakdown categories? -/
def recognizedLabel (a : String) : Bool :=
  decide (a = "Studying/Attentive") || decide (a = "Talking in Class") ||
  decide (a = "Sleeping") || strIncludes a "Phone"

/-- An attentive frame of student 7 (spec §8 example scenario;
`confidence` is irrelevant to aggregation and left `none`). -/
def recAtt : ActivityRecord :=
  { timestamp := ⟨9, 0, 0⟩, studentId := some 7,
    activity := "Studying/Attentive", confidence := none }

/-- A sleeping frame of student 7 (spec §8 example scenario). -/
def recSleep : ActivityRecord :=
  { timestamp := ⟨9, 0, 0⟩, studentId := some 7,
    activity := "Sleeping", confidence := none }

/-- A frame whose label is the inherited `Object.prototype` key
`"toString"`: it passes the `in` test via the prototype chain and pollutes
the breakdown's `counts` object. -/
def recToString : ActivityRecord :=
  { timestamp := ⟨9, 0, 0⟩, studentId := some 7,
    activity := "toString", confidence := none }

/-- The spec §8 example input: 90 records of student 7, 60 attentive and
30 sleeping. -/
def exampleRecords : List ActivityRecord :=
  List.replicate 60 recAtt ++ List.replicate 30 recSleep

/-- 15 attentive and 15 sleeping frames of student 7: every minute field
rounds up independently. -/
def halfRecords : List ActivityRecord :=
  List.replicate 15 recAtt ++ List.replicate 15 recSleep

/-! ### General list helpers -/

theorem headD_mem {α : Type _} (d : α) {l : List α} (h : l ≠ []) : l.headD d ∈ l := by
  cases l with
  | nil => exact absurd rfl h
  | cons a t => simp

theorem filter_not_length {α : Type _} (p : α → Bool) :
    ∀ l : List α, (l.filter p).length + (l.filter fun a => !(p a)).length = l.length := by
  intro l
  induction l with
  | nil => simp
  | cons a t ih =>
    by_cases h : p a = true <;> simp [List.filter_cons, h] <;> omega

theorem filter_length_eq_iff {α : Type _} (p : α → Bool) :
    ∀ l : List α, (l.filter p).length = l.length ↔ ∀ a ∈ l, p a = true := by
  intro l
  induction l with
  | nil => simp
  | cons a t ih =>
    by_cases h : p a = true
    · simp [List.filter_cons, h, ih]
    · simp only [List.filter_cons, if_neg h, List.length_cons]
      constructor
      · intro hlen
        exact absurd hlen (by have := List.length_filter_le p t; omega)
      · intro hall
        exact absurd (hall a (by simp)) (by simp [h])

theorem find_of_mem_nodup {α κ : Type _} [DecidableEq κ] (key : α → κ) :
    ∀ l : List α, (l.map key).Nodup → ∀ a ∈ l,
      l.find? (fun x => decide (key x = key a)) = some a := by
  intro l
  induction l with
  | nil => intro _ a ha; cases ha
  | cons b t ih =>
    intro hnd a ha
    rw [List.map_cons, List.nodup_cons] at hnd
    rcases List.mem_cons.mp ha with rfl | hat
    · exact List.find?_cons_of_pos t (by simp)
    · have hne : key b ≠ key a := by
        intro he
        exact hnd.1 (he ▸ List.mem_map_of_mem key hat)
      rw [List.find?_cons_of_neg t (by simp [hne])]
      exact ih hnd.2 a hat

/-! ### The stable sort (`Array.prototype.sort`) -/

theorem insertBy_perm {α : Type _} (le : α → α → Bool) (x : α) :
    ∀ l : List α, (insertBy le x l).Perm (x :: l) := by
  intro l
  induction l with
  | nil => simp [insertBy]
  | cons t ts ih =>
    by_cases h : le t x = true
    · simp only [insertBy, if_pos h]
      exact (ih.cons t).trans (List.Perm.swap x t ts)
    · simp [insertBy, if_neg h]

theorem foldl_insertBy_perm {α : Type _} (le : α → α → Bool) :
    ∀ (l acc : List α), (l.foldl (fun acc x => insertBy le x acc) acc).Perm (l ++ acc) := by
  intro l
  induction l with
  | nil => intro acc; simp
  | cons x l ih =>
    intro acc
    have h1 := ih (insertBy le x acc)
    have h2 : (l ++ insertBy le x acc).Perm (l ++ x :: acc) :=
      List.Perm.append_left l (insertBy_perm le x acc)
    have h3 : (l ++ x :: acc).Perm (x :: (l ++ acc)) := List.perm_middle
    simpa using (h1.trans h2).trans h3

theorem sortBy_perm {α : Type _} (le : α → α → Bool) (l : List α) :
    (sortBy le l).Perm l := by
  simpa [sortBy] using foldl_insertBy_perm le l []

theorem insertBy_pair {α : Type _} {le : α → α → Bool} {R Q : α → α → Prop}
    (htot : ∀ a b, le a b = false → le b a = true)
    (hR1 : ∀ a b, le b a = false → R a b)
    (hR2 : ∀ a b, le a b = true → Q a b → R a b)
    (h4 : ∀ x t b, le t x = false → le t b = true → le b x = false)
    (x : α) :
    ∀ acc : List α, acc.Pairwise (fun a b => le a b = true) → acc.Pairwise R →
      (∀ a ∈ acc, Q a x) →
      (insertBy le x acc).Pairwise (fun a b => le a b = true) ∧
        (insertBy le x acc).Pairwise R := by
  intro acc
  induction acc with
  | nil => intro _ _ _; constructor <;> simp [insertBy]
  | cons t ts ih =>
    intro hle hR hQ
    rw [List.pairwise_cons] at hle hR
    by_cases h : le t x = true
    · simp only [insertBy, if_pos h]
      obtain ⟨ih1, ih2⟩ := ih hle.2 hR.2 (fun a ha => hQ a (List.mem_cons_of_mem t ha))
      refine ⟨List.pairwise_cons.mpr ⟨?_, ih1⟩, List.pairwise_cons.mpr ⟨?_, ih2⟩⟩
      · intro y hy
        rcases List.mem_cons.mp ((insertBy_perm le x ts).mem_iff.mp hy) with rfl | hyts
        · exact h
        · exact hle.1 y hyts
      · intro y hy
        rcases List.mem_cons.mp ((insertBy_perm le x ts).mem_iff.mp hy) with rfl | hyts
        · exact hR2 t y h (hQ t (by simp))
        · exact hR.1 y hyts
    · have hf : le t x = false := by simpa using h
      simp only [insertBy, if_neg h]
      refine ⟨List.pairwise_cons.mpr ⟨?_, List.pairwise_cons.mpr ⟨hle.1, hle.2⟩⟩,
        List.pairwise_cons.mpr ⟨?_, List.pairwise_cons.mpr ⟨hR.1, hR.2⟩⟩⟩
      · intro y hy
        rcases List.mem_cons.mp hy with rfl | hyts
        · exact htot _ _ hf
        · exact htot y x (h4 x t y hf (hle.1 y hyts))
      · intro y hy
        rcases List.mem_cons.mp hy with rfl | hyts
        · exact hR1 _ _ hf
        · exact hR1 x y (h4 x t y hf (hle.1 y hyts))

theorem foldl_insertBy_pair {α : Type _} {le : α → α → Bool} {R Q : α → α → Prop}
    (htot : ∀ a b, le a b = false → le b a = true)
    (hR1 : ∀ a b, le b a = false → R a b)
    (hR2 : ∀ a b, le a b = true → Q a b → R a b)
    (h4 : ∀ x t b, le t x = false → le t b = true → le b x = false) :
    ∀ (l acc : List α), acc.Pairwise (fun a b => le a b = true) → acc.Pairwise R →
      (∀ a ∈ acc, ∀ x ∈ l, Q a x) → l.Pairwise Q →
      (l.foldl (fun acc x => insertBy le x acc) acc).Pairwise R := by
  intro l
  induction l with
  | nil => intro acc _ hR _ _; simpa using hR
  | cons x l ih =>
    intro acc hle hR hacc hQ
    rw [List.pairwise_cons] at hQ
    obtain ⟨h1, h2⟩ := insertBy_pair htot hR1 hR2 h4 x acc hle hR
      (fun a ha => hacc a ha x (by simp))
    refine ih _ h1 h2 ?_ hQ.2
    intro a ha y hy
    rcases List.mem_cons.mp ((insertBy_perm le x acc).mem_iff.mp ha) with rfl | hmem
    · exact hQ.1 y hy
    · exact hacc a hmem y (List.mem_cons_of_mem x hy)

theorem sortBy_pair {α : Type _} {le : α → α → Bool} {R Q : α → α → Prop}
    (htot : ∀ a b, le a b = false → le b a = true)
    (hR1 : ∀ a b, le b a = false → R a b)
    (hR2 : ∀ a b, le a b = true → Q a b → R a b)
    (h4 : ∀ x t b, le t x = false → le t b = true → le b x = false)
    (l : List α) (hQ : l.Pairwise Q) : (sortBy le l).Pairwise R :=
  foldl_insertBy_pair htot hR1 hR2 h4 l [] (by simp) (by simp) (by simp) hQ

/-! ### Lexicographic comparison lemmas -/

theorem charsCmp_eq : ∀ as bs : List Char, charsCmp as bs = Ordering.eq → as = bs := by
  intro as
  induction as with
  | nil =>
    intro bs h
    cases bs with
    | nil => rfl
    | cons d ds => simp [charsCmp] at h
  | cons c cs ih =>
    intro bs h
    cases bs with
    | nil => simp [charsCmp] at h
    | cons d ds =>
      simp only [charsCmp] at h
      by_cases h1 : c.toNat < d.toNat
      · rw [if_pos h1] at h; simp at h
      · rw [if_neg h1] at h
        by_cases h2 : d.toNat < c.toNat
        · rw [if_pos h2] at h; simp at h
        · rw [if_neg h2] at h
          have hnat : c.toNat = d.toNat := by omega
          have hcd : c = d := Char.ext (UInt32.ext hnat)
          rw [hcd, ih ds h]

theorem charsCmp_gt_iff : ∀ as bs : List Char,
    charsCmp as bs = Ordering.gt ↔ charsCmp bs as = Ordering.lt := by
  intro as
  induction as with
  | nil => intro bs; cases bs <;> simp [charsCmp]
  | cons c cs ih =>
    intro bs
    cases bs with
    | nil => simp [charsCmp]
    | cons d ds =>
      simp only [charsCmp]
      rcases Nat.lt_trichotomy c.toNat d.toNat with h1 | h1 | h1
      · rw [if_pos h1, if_neg (by omega), if_pos h1]; simp
      · rw [if_neg (by omega), if_neg (by omega), if_neg (by omega), if_neg (by omega)]
        exact ih ds
      · rw [if_neg (by omega), if_pos h1, if_pos h1]; simp

theorem charsCmp_lt_trans : ∀ as bs cs : List Char,
    charsCmp as bs = Ordering.lt → charsCmp bs cs = Ordering.lt →
    charsCmp as cs = Ordering.lt := by
  intro as
  induction as with
  | nil =>
    intro bs cs h1 h2
    cases bs with
    | nil => simp [charsCmp] at h1
    | cons d ds =>
      cases cs with
      | nil => simp [charsCmp] at h2
      | cons e es => simp [charsCmp]
  | cons a as ih =>
    intro bs cs h1 h2
    cases bs with
    | nil => simp [charsCmp] at h1
    | cons b bs =>
      cases cs with
      | nil => simp [charsCmp] at h2
      | cons c cs =>
        simp only [charsCmp] at h1 h2 ⊢
        by_cases hab : a.toNat < b.toNat
        · by_cases hbc : b.toNat < c.toNat
          · rw [if_pos (by omega)]
          · rw [if_neg hbc] at h2
            by_cases hcb : c.toNat < b.toNat
            · rw [if_pos hcb] at h2; simp at h2
            · rw [if_pos (by omega)]
        · rw [if_neg hab] at h1
          by_cases hba : b.toNat < a.toNat
          · rw [if_pos hba] at h1; simp at h1
          · rw [if_neg hba] at h1
            by_cases hbc : b.toNat < c.toNat
            · rw [if_pos (by omega)]
            · rw [if_neg hbc] at h2
              by_cases hcb : c.toNat < b.toNat
              · rw [if_pos hcb] at h2; simp at h2
              · rw [if_neg hcb] at h2
                rw [if_neg (by omega), if_neg (by omega)]
                exact ih bs cs h1 h2

/-! ### Summarizer: per-record step and replay -/

theorem updateSummary_spec (r : ActivityRecord) (s : StudentSummary) :
    (updateSummary r s).studentId = s.studentId ∧
    (updateSummary r s).engagementPct = s.engagementPct ∧
    (updateSummary r s).timeline = s.timeline ++ [recEntry r] ∧
    (updateSummary r s).totalMinutes = s.totalMinutes + 1 ∧
    (updateSummary r s).attentiveMinutes =
      s.attentiveMinutes + (if r.activity = "Studying/Attentive" then 1 else 0) ∧
    (updateSummary r s).inattentiveMinutes =
      s.inattentiveMinutes + (if r.activity = "Studying/Attentive" then 0 else 1) ∧
    (updateSummary r s).sleepingMinutes =
      s.sleepingMinutes + (if r.activity = "Sleeping" then 1 else 0) ∧
    (updateSummary r s).talkingMinutes =
      s.talkingMinutes + (if r.activity = "Talking in Class" then 1 else 0) ∧
    (updateSummary r s).phoneMinutes =
      s.phoneMinutes + (if r.activity ≠ "Studying/Attentive" ∧ r.activity ≠ "Sleeping" ∧
        r.activity ≠ "Talking in Class" ∧ strIncludes r.activity "Phone" = true
        then 1 else 0) := by
  unfold updateSummary
  by_cases h1 : r.activity = "Studying/Attentive"
  · simp [h1]
  · by_cases h2 : r.activity = "Sleeping"
    · simp [h1, h2]
    · by_cases h3 : r.activity = "Talking in Class"
      · simp [h1, h2, h3]
      · by_cases h4 : strIncludes r.activity "Phone" = true
        · simp [h1, h2, h3, h4]
        · simp [h1, h2, h3, h4]

theorem applyRecords_cons (s : StudentSummary) (r : ActivityRecord)
    (rs : List ActivityRecord) :
    applyRecords s (r :: rs) = applyRecords (updateSummary r s) rs := rfl

theorem applyRecords_spec :
    ∀ (rs : List ActivityRecord) (s : StudentSummary),
    (applyRecords s rs).studentId = s.studentId ∧
    (applyRecords s rs).engagementPct = s.engagementPct ∧
    (applyRecords s rs).timeline = s.timeline ++ rs.map recEntry ∧
    (applyRecords s rs).totalMinutes = s.totalMinutes + rs.length ∧
    (applyRecords s rs).attentiveMinutes = s.attentiveMinutes +
      (rs.filter fun r => decide (r.activity = "Studying/Attentive")).length ∧
    (applyRecords s rs).inattentiveMinutes = s.inattentiveMinutes +
      (rs.filter fun r => decide (r.activity ≠ "Studying/Attentive")).length ∧
    (applyRecords s rs).sleepingMinutes = s.sleepingMinutes +
      (rs.filter fun r => decide (r.activity = "Sleeping")).length ∧
    (applyRecords s rs).talkingMinutes = s.talkingMinutes +
      (rs.filter fun r => decide (r.activity = "Talking in Class")).length ∧
    (applyRecords s rs).phoneMinutes = s.phoneMinutes +
      (rs.filter fun r => decide (r.activity ≠ "Studying/Attentive" ∧
        r.activity ≠ "Sleeping" ∧ r.activity ≠ "Talking in Class" ∧
        strIncludes r.activity "Phone" = true)).length := by
  intro rs
  induction rs with
  | nil => intro s; simp [applyRecords]
  | cons r rs ih =>
    intro s
    rw [applyRecords_cons]
    obtain ⟨u1, u2, u3, u4, u5, u6, u7, u8, u9⟩ := updateSummary_spec r s
    obtain ⟨i1, i2, i3, i4, i5, i6, i7, i8, i9⟩ := ih (updateSummary r s)
    refine ⟨by rw [i1, u1], by rw [i2, u2], ?_, ?_, ?_, ?_, ?_, ?_, ?_⟩
    · rw [i3, u3]; simp
    · rw [i4, u4]; simp [List.length_cons]; omega
    · rw [i5, u5, List.filter_cons]
      by_cases hc : r.activity = "Studying/Attentive" <;> simp [hc] <;> omega
    · rw [i6, u6, List.filter_cons]
      by_cases hc : r.activity = "Studying/Attentive" <;> simp [hc] <;> omega
    · rw [i7, u7, List.filter_cons]
      by_cases hc : r.activity = "Sleeping" <;> simp [hc] <;> omega
    · rw [i8, u8, List.filter_cons]
      by_cases hc : r.activity = "Talking in Class" <;> simp [hc] <;> omega
    · rw [i9, u9, List.filter_cons]
      by_cases hc : r.activity ≠ "Studying/Attentive" ∧ r.activity ≠ "Sleeping" ∧
          r.activity ≠ "Talking in Class" ∧ strIncludes r.activity "Phone" = true <;>
        simp [hc] <;> omega

/-! ### Summarizer: the student map -/

theorem insertRecord_find (r : ActivityRecord) :
    ∀ (acc : List StudentSummary) (sid : Option Int),
    findSummary (insertRecord acc r) sid =
      if sid = r.studentId then
        some (updateSummary r ((findSummary acc sid).getD (emptySummary sid)))
      else findSummary acc sid := by
  intro acc
  induction acc with
  | nil =>
    intro sid
    by_cases h : sid = r.studentId
    · rw [if_pos h]
      show List.find? _ [updateSummary r (emptySummary r.studentId)] = _
      rw [List.find?_cons_of_pos _
        (by simp [(updateSummary_spec r _).1, emptySummary, h])]
      simp [findSummary, h]
    · rw [if_neg h]
      show List.find? _ [updateSummary r (emptySummary r.studentId)] = _
      rw [List.find?_cons_of_neg _
        (by simp [(updateSummary_spec r _).1, emptySummary]; exact fun hh => h hh.symm)]
      simp [findSummary]
  | cons a as ih =>
    intro sid
    by_cases ha : a.studentId = r.studentId
    · rw [show insertRecord (a :: as) r = updateSummary r a :: as from by
        simp [insertRecord, ha]]
      by_cases h : sid = r.studentId
      · rw [if_pos h]
        rw [show findSummary (updateSummary r a :: as) sid =
            some (updateSummary r a) from by
          rw [findSummary]
          exact List.find?_cons_of_pos _
            (by simp [(updateSummary_spec r a).1, ha, h])]
        rw [show findSummary (a :: as) sid = some a from by
          rw [findSummary]
          exact List.find?_cons_of_pos _ (by simp [ha, h])]
        simp
      · rw [if_neg h]
        rw [show findSummary (updateSummary r a :: as) sid = findSummary as sid from by
          rw [findSummary]
          rw [List.find?_cons_of_neg _
            (by simp [(updateSummary_spec r a).1, ha]; exact fun hh => h hh.symm)]
          rfl]
        rw [show findSummary (a :: as) sid = findSummary as sid from by
          rw [findSummary]
          rw [List.find?_cons_of_neg _ (by simp [ha]; exact fun hh => h hh.symm)]
          rfl]
    · rw [show insertRecord (a :: as) r = a :: insertRecord as r from by
        simp [insertRecord, ha]]
      by_cases hs : a.studentId = sid
      · have h2 : ¬ sid = r.studentId := fun he => ha (hs.trans he)
        rw [if_neg h2]
        rw [show findSummary (a :: insertRecord as r) sid = some a from by
          rw [findSummary]
          exact List.find?_cons_of_pos _ (by simp [hs])]
        rw [show findSummary (a :: as) sid = some a from by
          rw [findSummary]
          exact List.find?_cons_of_pos _ (by simp [hs])]
      · rw [show findSummary (a :: insertRecord as r) sid =
            findSummary (insertRecord as r) sid from by
          rw [findSummary]
          rw [List.find?_cons_of_neg _ (by simp [hs])]
          rfl]
        rw [show findSummary (a :: as) sid = findSummary as sid from by
          rw [findSummary]
          rw [List.find?_cons_of_neg _ (by simp [hs])]
          rfl]
        exact ih sid

theorem insertRecord_ids (r : ActivityRecord) :
    ∀ acc : List StudentSummary,
    (insertRecord acc r).map (fun s => s.studentId) =
      if r.studentId ∈ acc.map (fun s => s.studentId) then
        acc.map (fun s => s.studentId)
      else acc.map (fun s => s.studentId) ++ [r.studentId] := by
  intro acc
  induction acc with
  | nil => simp [insertRecord, (updateSummary_spec r _).1, emptySummary]
  | cons a as ih =>
    by_cases ha : a.studentId = r.studentId
    · simp [insertRecord, ha, (updateSummary_spec r a).1]
    · simp only [insertRecord, if_neg ha, List.map_cons, ih]
      have ha' : ¬ r.studentId = a.studentId := fun h => ha h.symm
      by_cases hmem : r.studentId ∈ as.map (fun s => s.studentId)
      · simp [hmem, ha']
      · simp [hmem, ha']

theorem foldl_insert_find :
    ∀ (rs : List ActivityRecord) (acc : List StudentSummary) (sid : Option Int),
    findSummary (rs.foldl insertRecord acc) sid =
      if (rs.filter fun r => decide (r.studentId = sid)) = [] then findSummary acc sid
      else some (applyRecords ((findSummary acc sid).getD (emptySummary sid))
        (rs.filter fun r => decide (r.studentId = sid))) := by
  intro rs
  induction rs with
  | nil => intro acc sid; simp
  | cons r rs ih =>
    intro acc sid
    rw [List.foldl_cons]
    simp only [List.filter_cons, decide_eq_true_eq]
    by_cases h : r.studentId = sid
    · rw [if_pos h]
      rw [ih (insertRecord acc r) sid, insertRecord_find r acc sid]
      rw [if_pos h.symm]
      have hcons : ¬ (r :: (rs.filter fun r => decide (r.studentId = sid))) = [] := by simp
      by_cases hf : (rs.filter fun r => decide (r.studentId = sid)) = []
      · rw [if_pos hf, hf, if_neg (by simp)]
        simp [applyRecords, h.symm]
      · rw [if_neg hf, if_neg hcons]
        simp only [Option.getD_some]
        rw [applyRecords_cons]
    · rw [if_neg h]
      have hsid : ¬ sid = r.studentId := fun hs => h hs.symm
      rw [ih (insertRecord acc r) sid, insertRecord_find r acc sid, if_neg hsid]

theorem foldl_insert_ids :
    ∀ (rs : List ActivityRecord) (acc : List StudentSummary),
    (rs.foldl insertRecord acc).map (fun s => s.studentId) =
      acc.map (fun s => s.studentId) ++ newIds rs (acc.map (fun s => s.studentId)) := by
  intro rs
  induction rs with
  | nil => intro acc; simp [newIds]
  | cons r rs ih =>
    intro acc
    rw [List.foldl_cons, ih (insertRecord acc r), insertRecord_ids r acc]
    by_cases hmem : r.studentId ∈ acc.map (fun s => s.studentId)
    · rw [if_pos hmem]
      rw [show newIds (r :: rs) (acc.map fun s => s.studentId) =
          newIds rs (acc.map fun s => s.studentId) from by simp [newIds, hmem]]
    · rw [if_neg hmem]
      rw [show newIds (r :: rs) (acc.map fun s => s.studentId) =
          r.studentId :: newIds rs (acc.map (fun s => s.studentId) ++ [r.studentId])
          from by simp [newIds, hmem]]
      simp

/-! ### First-appearance order of student ids -/

theorem mem_newIds :
    ∀ (rs : List ActivityRecord) (seen : List (Option Int)) (i : Option Int),
    i ∈ newIds rs seen ↔ i ∉ seen ∧ i ∈ rs.map (fun r => r.studentId) := by
  intro rs
  induction rs with
  | nil => intro seen i; simp [newIds]
  | cons r rs ih =>
    intro seen i
    by_cases hm : r.studentId ∈ seen
    · rw [show newIds (r :: rs) seen = newIds rs seen from by simp [newIds, hm]]
      rw [ih seen i]
      simp only [List.map_cons, List.mem_cons]
      constructor
      · rintro ⟨h1, h2⟩; exact ⟨h1, Or.inr h2⟩
      · rintro ⟨h1, h2 | h2⟩
        · exact absurd (h2 ▸ hm) h1
        · exact ⟨h1, h2⟩
    · rw [show newIds (r :: rs) seen =
        r.studentId :: newIds rs (seen ++ [r.studentId]) from by simp [newIds, hm]]
      simp only [List.mem_cons, List.map_cons]
      rw [ih (seen ++ [r.studentId]) i]
      constructor
      · rintro (rfl | ⟨h1, h2⟩)
        · exact ⟨hm, Or.inl rfl⟩
        · exact ⟨fun hs => h1 (List.mem_append_left _ hs), Or.inr h2⟩
      · rintro ⟨h1, rfl | h2⟩
        · exact Or.inl rfl
        · by_cases hir : i = r.studentId
          · exact Or.inl hir
          · refine Or.inr ⟨?_, h2⟩
            intro hmem
            rcases List.mem_append.mp hmem with hs | hs
            · exact h1 hs
            · exact hir (List.mem_singleton.mp hs)

theorem newIds_nodup : ∀ (rs : List ActivityRecord) (seen : List (Option Int)),
    (newIds rs seen).Nodup := by
  intro rs
  induction rs with
  | nil => intro seen; simp [newIds]
  | cons r rs ih =>
    intro seen
    by_cases hm : r.studentId ∈ seen
    · rw [show newIds (r :: rs) seen = newIds rs seen from by simp [newIds, hm]]
      exact ih seen
    · rw [show newIds (r :: rs) seen =
        r.studentId :: newIds rs (seen ++ [r.studentId]) from by simp [newIds, hm]]
      rw [List.nodup_cons]
      refine ⟨?_, ih _⟩
      intro hmem
      exact ((mem_newIds rs _ _).mp hmem).1 (List.mem_append_right _ (by simp))

theorem newIds_pairwise :
    ∀ (rs : List ActivityRecord) (seen : List (Option Int)),
    (newIds rs seen).Pairwise (fun i j => firstIdx rs i < firstIdx rs j) := by
  intro rs
  induction rs with
  | nil => intro seen; simp [newIds]
  | cons r rs ih =>
    intro seen
    have hstep : ∀ i : Option Int, i ≠ r.studentId →
        firstIdx (r :: rs) i = firstIdx rs i + 1 := by
      intro i hi
      simp only [firstIdx, List.findIdx_cons]
      rw [decide_eq_false (fun h => hi h.symm)]
      rfl
    have h0 : firstIdx (r :: rs) r.studentId = 0 := by
      simp [firstIdx, List.findIdx_cons]
    by_cases hm : r.studentId ∈ seen
    · rw [show newIds (r :: rs) seen = newIds rs seen from by simp [newIds, hm]]
      refine (ih seen).imp_of_mem ?_
      intro a b ha hb hab
      have hha : a ≠ r.studentId := by
        intro he
        exact ((mem_newIds rs seen a).mp ha).1 (by rw [he]; exact hm)
      have hhb : b ≠ r.studentId := by
        intro he
        exact ((mem_newIds rs seen b).mp hb).1 (by rw [he]; exact hm)
      rw [hstep a hha, hstep b hhb]
      omega
    · rw [show newIds (r :: rs) seen =
        r.studentId :: newIds rs (seen ++ [r.studentId]) from by simp [newIds, hm]]
      rw [List.pairwise_cons]
      constructor
      · intro j hj
        have hj' : j ≠ r.studentId := by
          intro he
          exact ((mem_newIds rs _ j).mp hj).1
            (by rw [he]; exact List.mem_append_right _ (by simp))
        rw [h0, hstep j hj']
        omega
      · refine (ih _).imp_of_mem ?_
        intro a b ha hb hab
        have hha : a ≠ r.studentId := by
          intro he
          exact ((mem_newIds rs _ a).mp ha).1
            (by rw [he]; exact List.mem_append_right _ (by simp))
        have hhb : b ≠ r.studentId := by
          intro he
          exact ((mem_newIds rs _ b).mp hb).1
            (by rw [he]; exact List.mem_append_right _ (by simp))
        rw [hstep a hha, hstep b hhb]
        omega

/-! ### Accumulation characterised by input filters -/

theorem finalizeSummary_spec (s : StudentSummary) :
    (finalizeSummary s).studentId = s.studentId ∧
    (finalizeSummary s).timeline = s.timeline ∧
    (finalizeSummary s).totalMinutes = jsRound s.totalMinutes 30 ∧
    (finalizeSummary s).attentiveMinutes = jsRound s.attentiveMinutes 30 ∧
    (finalizeSummary s).inattentiveMinutes = jsRound s.inattentiveMinutes 30 ∧
    (finalizeSummary s).sleepingMinutes = jsRound s.sleepingMinutes 30 ∧
    (finalizeSummary s).talkingMinutes = jsRound s.talkingMinutes 30 ∧
    (finalizeSummary s).phoneMinutes = jsRound s.phoneMinutes 30 ∧
    (finalizeSummary s).engagementPct = jsRound (s.attentiveMinutes * 100) s.totalMinutes :=
  ⟨rfl, rfl, rfl, rfl, rfl, rfl, rfl, rfl, rfl⟩

theorem accumulate_ids (records : List ActivityRecord) :
    (accumulate records).map (fun s => s.studentId) = newIds records [] := by
  have h := foldl_insert_ids records []
  simpa [accumulate] using h

theorem accumulate_char :
    ∀ (records : List ActivityRecord), ∀ s ∈ accumulate records,
    studentRecords records s.studentId ≠ [] ∧
    s = applyRecords (emptySummary s.studentId) (studentRecords records s.studentId) := by
  intro records s hs
  have hnodup : ((accumulate records).map (fun t => t.studentId)).Nodup := by
    rw [accumulate_ids]
    exact newIds_nodup records []
  have hfind : findSummary (accumulate records) s.studentId = some s :=
    find_of_mem_nodup (fun t : StudentSummary => t.studentId) (accumulate records) hnodup s hs
  unfold accumulate at hfind
  have h2 := foldl_insert_find records [] s.studentId
  by_cases hf : (records.filter fun r => decide (r.studentId = s.studentId)) = []
  · rw [if_pos hf] at h2
    exact absurd (hfind.symm.trans h2) (by simp [findSummary])
  · rw [if_neg hf] at h2
    have h3 := Option.some.inj (hfind.symm.trans h2)
    constructor
    · exact fun he => hf he
    · exact h3

theorem accumulate_counts :
    ∀ (records : List ActivityRecord), ∀ s ∈ accumulate records,
    s.totalMinutes = frameCount records s.studentId ∧
    s.attentiveMinutes = attentiveFrames records s.studentId ∧
    s.inattentiveMinutes = inattentiveFrames records s.studentId ∧
    s.sleepingMinutes = sleepingFrames records s.studentId ∧
    s.talkingMinutes = talkingFrames records s.studentId ∧
    s.phoneMinutes = phoneFrames records s.studentId ∧
    s.timeline = (studentRecords records s.studentId).map recEntry ∧
    s.engagementPct = 0 ∧
    1 ≤ frameCount records s.studentId := by
  intro records s hs
  obtain ⟨hne, hchar⟩ := accumulate_char records s hs
  obtain ⟨a1, a2, a3, a4, a5, a6, a7, a8, a9⟩ :=
    applyRecords_spec (studentRecords records s.studentId) (emptySummary s.studentId)
  refine ⟨?_, ?_, ?_, ?_, ?_, ?_, ?_, ?_, ?_⟩
  · conv_lhs => rw [hchar]
    rw [a4]; simp [emptySummary, frameCount]
  · conv_lhs => rw [hchar]
    rw [a5]; simp [emptySummary, attentiveFrames]
  · conv_lhs => rw [hchar]
    rw [a6]; simp [emptySummary, inattentiveFrames]
  · conv_lhs => rw [hchar]
    rw [a7]; simp [emptySummary, sleepingFrames]
  · conv_lhs => rw [hchar]
    rw [a8]; simp [emptySummary, talkingFrames]
  · conv_lhs => rw [hchar]
    rw [a9]; simp [emptySummary, phoneFrames]
  · conv_lhs => rw [hchar]
    rw [a3]; simp [emptySummary]
  · conv_lhs => rw [hchar]
    rw [a2]; simp [emptySummary]
  · rw [frameCount]
    exact List.length_pos.mpr hne

theorem mem_calculate (records : List ActivityRecord) (s : StudentSummary) :
    s ∈ calculateStudentSummaries records ↔
      ∃ t ∈ accumulate records, s = finalizeSummary t := by
  rw [show calculateStudentSummaries records =
    sortBy summaryLe ((accumulate records).map finalizeSummary) from rfl]
  rw [(sortBy_perm summaryLe _).mem_iff]
  simp only [List.mem_map]
  constructor
  · rintro ⟨t, ht, rfl⟩; exact ⟨t, ht, rfl⟩
  · rintro ⟨t, ht, rfl⟩; exact ⟨t, ht, rfl⟩

theorem calculate_ids_perm (records : List ActivityRecord) :
    ((calculateStudentSummaries records).map (fun s => s.studentId)).Perm
      (newIds records []) := by
  have h1 : ((accumulate records).map finalizeSummary).map (fun s => s.studentId) =
      (accumulate records).map (fun s => s.studentId) := by
    rw [List.map_map]
    exact List.map_congr_left (fun a _ => (finalizeSummary_spec a).1)
  have hp := (sortBy_perm summaryLe ((accumulate records).map finalizeSummary)).map
    (fun s : StudentSummary => s.studentId)
  rw [h1, accumulate_ids] at hp
  exact hp

/-! ### Claims about the summarizer -/

set_option maxRecDepth 10000 in
/-- C1: every summary's minute fields are `round(frames / 30)` of the
per-student frame counts and `engagementPct` is
`round(attentiveFrames / totalFrames * 100)` over the pre-conversion frame
counts; on the 90-record example of student 7 (60 attentive, 30 sleeping)
the single summary has `totalMinutes = 3`, `attentiveMinutes = 2`,
`engagementPct = 67`. -/
theorem claim_C1 :
    (∀ records : List ActivityRecord, records ≠ [] →
      ∀ s ∈ calculateStudentSummaries records,
        s.totalMinutes = jsRound (frameCount records s.studentId) 30 ∧
        s.attentiveMinutes = jsRound (attentiveFrames records s.studentId) 30 ∧
        s.inattentiveMinutes = jsRound (inattentiveFrames records s.studentId) 30 ∧
        s.sleepingMinutes = jsRound (sleepingFrames records s.studentId) 30 ∧
        s.talkingMinutes = jsRound (talkingFrames records s.studentId) 30 ∧
        s.phoneMinutes = jsRound (phoneFrames records s.studentId) 30 ∧
        s.engagementPct = jsRound (attentiveFrames records s.studentId * 100)
          (frameCount records s.studentId)) ∧
    (calculateStudentSummaries exampleRecords).map
        (fun s => (s.studentId, s.totalMinutes, s.attentiveMinutes, s.engagementPct)) =
      [(some 7, 3, 2, 67)] := by
  constructor
  · intro records _ s hs
    rcases (mem_calculate records s).mp hs with ⟨t, ht, rfl⟩
    obtain ⟨c1, c2, c3, c4, c5, c6, c7, c8, c9⟩ := accumulate_counts records t ht
    obtain ⟨f1, f2, f3, f4, f5, f6, f7, f8, f9⟩ := finalizeSummary_spec t
    rw [f1]
    exact ⟨by rw [f3, c1], by rw [f4, c2], by rw [f5, c3], by rw [f6, c4],
      by rw [f7, c5], by rw [f8, c6], by rw [f9, c2, c1]⟩
  · decide

set_option maxRecDepth 10000 in
/-- Witness for C1 at the spec's example input. -/
theorem claim_C1_witness :
    exampleRecords ≠ [] ∧
    ((calculateStudentSummaries exampleRecords).headD (emptySummary none)).totalMinutes =
      jsRound (frameCount exampleRecords
        ((calculateStudentSummaries exampleRecords).headD (emptySummary none)).studentId) 30 := by
  have hne : calculateStudentSummaries exampleRecords ≠ [] := by decide
  exact ⟨by decide, (claim_C1.1 exampleRecords (by decide) _ (headD_mem _ hne)).1⟩

/-- C2: one summary per distinct input student id (no omissions, no
duplicates), and each summary's timeline is exactly that student's own
records in input order. -/
theorem claim_C2 : ∀ records : List ActivityRecord,
    ((calculateStudentSummaries records).map (fun s => s.studentId)).Nodup ∧
    (∀ sid : Option Int,
      sid ∈ (calculateStudentSummaries records).map (fun s => s.studentId) ↔
      sid ∈ records.map (fun r => r.studentId)) ∧
    (∀ s ∈ calculateStudentSummaries records,
      s.timeline = (studentRecords records s.studentId).map recEntry) := by
  intro records
  have hperm := calculate_ids_perm records
  refine ⟨?_, ?_, ?_⟩
  · rw [hperm.nodup_iff]
    exact newIds_nodup records []
  · intro sid
    rw [hperm.mem_iff, mem_newIds]
    simp
  · intro s hs
    rcases (mem_calculate records s).mp hs with ⟨t, ht, rfl⟩
    obtain ⟨c1, c2, c3, c4, c5, c6, c7, c8, c9⟩ := accumulate_counts records t ht
    rw [(finalizeSummary_spec t).2.1, (finalizeSummary_spec t).1, c7]

set_option maxRecDepth 2000 in
/-- Witness for C2: the timeline clause applied at a one-record input. -/
theorem claim_C2_witness :
    ((calculateStudentSummaries [recSleep]).headD (emptySummary none)).timeline =
      (studentRecords [recSleep]
        ((calculateStudentSummaries [recSleep]).headD (emptySummary none)).studentId).map
        recEntry := by
  have hne : calculateStudentSummaries [recSleep] ≠ [] := by decide
  exact (claim_C2 [recSleep]).2.2 _ (headD_mem _ hne)

/-- C3: the output is sorted by `engagementPct` descending, with ties in
first-appearance order of the student id in the input. -/
theorem claim_C3 : ∀ records : List ActivityRecord,
    (calculateStudentSummaries records).Pairwise (fun a b =>
      b.engagementPct < a.engagementPct ∨
      (a.engagementPct = b.engagementPct ∧
        firstIdx records a.studentId < firstIdx records b.studentId)) := by
  intro records
  rw [show calculateStudentSummaries records =
    sortBy summaryLe ((accumulate records).map finalizeSummary) from rfl]
  have h2 : ((accumulate records).map (fun s => s.studentId)).Pairwise
      (fun i j => firstIdx records i < firstIdx records j) := by
    rw [accumulate_ids]
    exact newIds_pairwise records []
  rw [List.pairwise_map] at h2
  have hQ : ((accumulate records).map finalizeSummary).Pairwise
      (fun a b => firstIdx records a.studentId < firstIdx records b.studentId) := by
    rw [List.pairwise_map]
    refine h2.imp ?_
    intro a b hab
    rw [(finalizeSummary_spec a).1, (finalizeSummary_spec b).1]
    exact hab
  refine sortBy_pair ?_ ?_ ?_ ?_ _ hQ
  · intro a b h
    simp only [summaryLe, decide_eq_false_iff_not, not_le] at h
    simp only [summaryLe, decide_eq_true_eq]
    omega
  · intro a b h
    simp only [summaryLe, decide_eq_false_iff_not, not_le] at h
    exact Or.inl h
  · intro a b h hq
    simp only [summaryLe, decide_eq_true_eq] at h
    by_cases hlt : b.engagementPct < a.engagementPct
    · exact Or.inl hlt
    · exact Or.inr ⟨by omega, hq⟩
  · intro x t b h1 h2
    simp only [summaryLe, decide_eq_false_iff_not, not_le] at h1 ⊢
    simp only [summaryLe, decide_eq_true_eq] at h2
    omega

set_option maxRecDepth 10000 in
/-- C10: minute fields are rounded independently, so they need not add up
(15 attentive + 15 inattentive frames give 1 + 1 ≠ 1); the pre-conversion
frame counts always satisfy `attentive + inattentive = total`. -/
theorem claim_C10 :
    (∃ s ∈ calculateStudentSummaries halfRecords,
      s.attentiveMinutes + s.inattentiveMinutes ≠ s.totalMinutes) ∧
    (∀ records : List ActivityRecord, ∀ s ∈ accumulate records,
      s.attentiveMinutes + s.inattentiveMinutes = s.totalMinutes) := by
  constructor
  · decide
  · intro records s hs
    obtain ⟨c1, c2, c3, c4, c5, c6, c7, c8, c9⟩ := accumulate_counts records s hs
    rw [c1, c2, c3]
    rw [attentiveFrames, inattentiveFrames, frameCount]
    have heq : ((studentRecords records s.studentId).filter
          fun r => decide (r.activity ≠ "Studying/Attentive")) =
        ((studentRecords records s.studentId).filter
          fun r => !(decide (r.activity = "Studying/Attentive"))) := by
      apply List.filter_congr
      intro x _
      simp [decide_not]
    rw [heq]
    exact filter_not_length _ _

/-- Witness for C10: the frame-count identity applied at a one-record
input. -/
theorem claim_C10_witness :
    ((accumulate [recSleep]).headD (emptySummary none)).attentiveMinutes +
        ((accumulate [recSleep]).headD (emptySummary none)).inattentiveMinutes =
      ((accumulate [recSleep]).headD (emptySummary none)).totalMinutes := by
  have hne : accumulate [recSleep] ≠ [] := by decide
  exact claim_C10.2 [recSleep] _ (headD_mem _ hne)

/-! ### Claim about category exclusivity -/

/-- C6: an inattentive record bumps the inattentive count and exactly one
of sleeping / talking / phone / uncategorised, the first matching branch of
the `else if` chain winning. -/
theorem claim_C6 (r : ActivityRecord) (s : StudentSummary)
    (h : r.activity ≠ "Studying/Attentive") :
    (updateSummary r s).inattentiveMinutes = s.inattentiveMinutes + 1 ∧
    (((updateSummary r s).sleepingMinutes = s.sleepingMinutes + 1 ∧
      (updateSummary r s).talkingMinutes = s.talkingMinutes ∧
      (updateSummary r s).phoneMinutes = s.phoneMinutes ∧
      r.activity = "Sleeping") ∨
     ((updateSummary r s).sleepingMinutes = s.sleepingMinutes ∧
      (updateSummary r s).talkingMinutes = s.talkingMinutes + 1 ∧
      (updateSummary r s).phoneMinutes = s.phoneMinutes ∧
      r.activity ≠ "Sleeping" ∧ r.activity = "Talking in Class") ∨
     ((updateSummary r s).sleepingMinutes = s.sleepingMinutes ∧
      (updateSummary r s).talkingMinutes = s.talkingMinutes ∧
      (updateSummary r s).phoneMinutes = s.phoneMinutes + 1 ∧
      r.activity ≠ "Sleeping" ∧ r.activity ≠ "Talking in Class" ∧
      strIncludes r.activity "Phone" = true) ∨
     ((updateSummary r s).sleepingMinutes = s.sleepingMinutes ∧
      (updateSummary r s).talkingMinutes = s.talkingMinutes ∧
      (updateSummary r s).phoneMinutes = s.phoneMinutes ∧
      r.activity ≠ "Sleeping" ∧ r.activity ≠ "Talking in Class" ∧
      strIncludes r.activity "Phone" = false)) := by
  obtain ⟨u1, u2, u3, u4, u5, u6, u7, u8, u9⟩ := updateSummary_spec r s
  refine ⟨by rw [u6, if_neg h], ?_⟩
  by_cases h2 : r.activity = "Sleeping"
  · have hT : r.activity ≠ "Talking in Class" := by rw [h2]; decide
    have hP : ¬ (r.activity ≠ "Studying/Attentive" ∧ r.activity ≠ "Sleeping" ∧
        r.activity ≠ "Talking in Class" ∧ strIncludes r.activity "Phone" = true) :=
      fun hc => hc.2.1 h2
    exact Or.inl ⟨by simp [u7, h2], by simp [u8, hT], by simp [u9, hP], h2⟩
  · by_cases h3 : r.activity = "Talking in Class"
    · have hP : ¬ (r.activity ≠ "Studying/Attentive" ∧ r.activity ≠ "Sleeping" ∧
          r.activity ≠ "Talking in Class" ∧ strIncludes r.activity "Phone" = true) :=
        fun hc => hc.2.2.1 h3
      exact Or.inr (Or.inl ⟨by simp [u7, h2], by simp [u8, h3],
        by simp [u9, hP], h2, h3⟩)
    · by_cases h4 : strIncludes r.activity "Phone" = true
      · have hP : r.activity ≠ "Studying/Attentive" ∧ r.activity ≠ "Sleeping" ∧
            r.activity ≠ "Talking in Class" ∧ strIncludes r.activity "Phone" = true :=
          ⟨h, h2, h3, h4⟩
        exact Or.inr (Or.inr (Or.inl ⟨by simp [u7, h2], by simp [u8, h3],
          by simp [u9, hP], h2, h3, h4⟩))
      · have h4f : strIncludes r.activity "Phone" = false := by
          revert h4; cases strIncludes r.activity "Phone" <;> simp
        have hP : ¬ (r.activity ≠ "Studying/Attentive" ∧ r.activity ≠ "Sleeping" ∧
            r.activity ≠ "Talking in Class" ∧ strIncludes r.activity "Phone" = true) :=
          fun hc => h4 hc.2.2.2
        exact Or.inr (Or.inr (Or.inr ⟨by simp [u7, h2], by simp [u8, h3],
          by simp [u9, hP], h2, h3, h4f⟩))

/-- Witness for C6: the inattentive bump at a concrete sleeping record. -/
theorem claim_C6_witness :
    (updateSummary recSleep (emptySummary none)).inattentiveMinutes =
      (emptySummary none).inattentiveMinutes + 1 :=
  (claim_C6 recSleep (emptySummary none) (by decide)).1

/-! ### Breakdown lemmas and claim -/

theorem protoDataKeys_no_phone :
    ∀ k ∈ protoDataKeys, strIncludes k "Phone" = false := by decide

theorem breakdownStep_spec (c : BehaviorCounts) (r : ActivityRecord)
    (hsub : ∀ k ∈ c.polluted, k ∈ protoDataKeys) :
    (breakdownStep c r).attentive =
      c.attentive + (if r.activity = "Studying/Attentive" then 1 else 0) ∧
    (breakdownStep c r).talking =
      c.talking + (if r.activity = "Talking in Class" then 1 else 0) ∧
    (breakdownStep c r).sleeping =
      c.sleeping + (if r.activity = "Sleeping" then 1 else 0) ∧
    (breakdownStep c r).phone =
      c.phone + (if phoneBucketHit r.activity = true then 1 else 0) := by
  unfold breakdownStep
  by_cases h1 : r.activity = "Studying/Attentive"
  · have hp : phoneBucketHit "Studying/Attentive" = false := by decide
    simp [h1, hp]
  · by_cases h2 : r.activity = "Talking in Class"
    · have hp : phoneBucketHit "Talking in Class" = false := by decide
      simp [h1, h2, hp]
    · by_cases h3 : r.activity = "Sleeping"
      · have hp : phoneBucketHit "Sleeping" = false := by decide
        simp [h1, h2, h3, hp]
      · by_cases h4 : r.activity = "Phone"
        · have hp : phoneBucketHit "Phone" = true := by decide
          simp [h1, h2, h3, h4, hp]
        · by_cases h5 : r.activity ∈ c.polluted
          · have hip : strIncludes r.activity "Phone" = false :=
              protoDataKeys_no_phone _ (hsub _ h5)
            have hp : ¬ phoneBucketHit r.activity = true := by
              simp [phoneBucketHit, hip]
            simp [h1, h2, h3, h4, h5, hp]
          · by_cases h6 : r.activity ∈ protoDataKeys
            · have hip : strIncludes r.activity "Phone" = false :=
                protoDataKeys_no_phone _ h6
              have hp : ¬ phoneBucketHit r.activity = true := by
                simp [phoneBucketHit, hip]
              simp [h1, h2, h3, h4, h5, h6, hp]
            · by_cases h7 : r.activity = "__proto__"
              · have h5p : ("__proto__" : String) ∉ c.polluted := h7 ▸ h5
                have h6p : ("__proto__" : String) ∉ protoDataKeys := by decide
                have hp : phoneBucketHit "__proto__" = false := by decide
                simp [h1, h2, h3, h4, h7, h5p, h6p, hp]
              · by_cases h8 : strIncludes r.activity "Phone" = true
                · have hp : phoneBucketHit r.activity = true := by
                    simp [phoneBucketHit, h1, h2, h3, h8]
                  simp [h1, h2, h3, h4, h5, h6, h7, h8, hp]
                · have h8f : strIncludes r.activity "Phone" = false := by
                    revert h8; cases strIncludes r.activity "Phone" <;> simp
                  have hp : ¬ phoneBucketHit r.activity = true := by
                    simp [phoneBucketHit, h8f]
                  simp [h1, h2, h3, h4, h5, h6, h7, h8, hp]

theorem breakdownStep_polluted (c : BehaviorCounts) (r : ActivityRecord)
    (hsub : ∀ k ∈ c.polluted, k ∈ protoDataKeys) :
    ∀ k ∈ (breakdownStep c r).polluted, k ∈ protoDataKeys := by
  intro k hk
  unfold breakdownStep at hk
  split_ifs at hk with h1 h2 h3 h4 h5 h6 h7 h8 <;>
    first
    | exact hsub k hk
    | exact (List.mem_append.mp hk).elim (hsub k)
        (fun hmem => by rw [List.mem_singleton] at hmem; rw [hmem]; assumption)

theorem breakdownStep_clean (c : BehaviorCounts) (r : ActivityRecord)
    (h : r.activity ∉ protoDataKeys) :
    (breakdownStep c r).polluted = c.polluted := by
  unfold breakdownStep
  split_ifs with h1 h2 h3 h4 h5 h6 h7 h8 <;>
    first
    | rfl
    | exact absurd (by assumption) h

theorem foldl_breakdown_clean :
    ∀ (records : List ActivityRecord) (c : BehaviorCounts),
    (∀ r ∈ records, r.activity ∉ protoDataKeys) →
    (records.foldl breakdownStep c).polluted = c.polluted := by
  intro records
  induction records with
  | nil => intro c _; rfl
  | cons r rs ih =>
    intro c h
    rw [List.foldl_cons, ih _ (fun x hx => h x (List.mem_cons_of_mem r hx)),
      breakdownStep_clean c r (h r (by simp))]

theorem foldl_breakdown :
    ∀ (records : List ActivityRecord) (c : BehaviorCounts),
    (∀ k ∈ c.polluted, k ∈ protoDataKeys) →
    (records.foldl breakdownStep c).attentive = c.attentive +
      (records.filter fun r => decide (r.activity = "Studying/Attentive")).length ∧
    (records.foldl breakdownStep c).talking = c.talking +
      (records.filter fun r => decide (r.activity = "Talking in Class")).length ∧
    (records.foldl breakdownStep c).sleeping = c.sleeping +
      (records.filter fun r => decide (r.activity = "Sleeping")).length ∧
    (records.foldl breakdownStep c).phone = c.phone +
      (records.filter fun r => phoneBucketHit r.activity).length ∧
    (∀ k ∈ (records.foldl breakdownStep c).polluted, k ∈ protoDataKeys) := by
  intro records
  induction records with
  | nil =>
    intro c h
    refine ⟨by simp, by simp, by simp, by simp, by simpa using h⟩
  | cons r rs ih =>
    intro c hsub
    rw [List.foldl_cons]
    obtain ⟨b1, b2, b3, b4⟩ := breakdownStep_spec c r hsub
    have hsub2 := breakdownStep_polluted c r hsub
    obtain ⟨i1, i2, i3, i4, i5⟩ := ih (breakdownStep c r) hsub2
    refine ⟨?_, ?_, ?_, ?_, i5⟩
    · rw [i1, b1, List.filter_cons]
      by_cases hc : r.activity = "Studying/Attentive" <;> simp [hc] <;> omega
    · rw [i2, b2, List.filter_cons]
      by_cases hc : r.activity = "Talking in Class" <;> simp [hc] <;> omega
    · rw [i3, b3, List.filter_cons]
      by_cases hc : r.activity = "Sleeping" <;> simp [hc] <;> omega
    · rw [i4, b4, List.filter_cons]
      by_cases hc : phoneBucketHit r.activity = true <;> simp [hc] <;> omega

theorem bucketHits_le_one : ∀ a : String, bucketHits a ≤ 1 := by
  intro a
  unfold bucketHits
  by_cases h1 : a = "Studying/Attentive"
  · have hp : phoneBucketHit "Studying/Attentive" = false := by decide
    simp [h1, hp]
  · by_cases h2 : a = "Talking in Class"
    · have hp : phoneBucketHit "Talking in Class" = false := by decide
      simp [h1, h2, hp]
    · by_cases h3 : a = "Sleeping"
      · have hp : phoneBucketHit "Sleeping" = false := by decide
        simp [h1, h2, h3, hp]
      · by_cases h4 : phoneBucketHit a = true <;> simp [h1, h2, h3, h4]

theorem four_filter_sum : ∀ records : List ActivityRecord,
    (records.filter fun r => decide (r.activity = "Studying/Attentive")).length +
    (records.filter fun r => decide (r.activity = "Talking in Class")).length +
    (records.filter fun r => decide (r.activity = "Sleeping")).length +
    (records.filter fun r => phoneBucketHit r.activity).length =
    (records.filter fun r => recognizedLabel r.activity).length := by
  intro records
  induction records with
  | nil => simp
  | cons r rs ih =>
    simp only [List.filter_cons]
    by_cases h1 : r.activity = "Studying/Attentive"
    · have hp : phoneBucketHit "Studying/Attentive" = false := by decide
      have hr : recognizedLabel "Studying/Attentive" = true := by decide
      simp only [h1, hr]
      simp [hp]
      omega
    · by_cases h2 : r.activity = "Talking in Class"
      · have hp : phoneBucketHit "Talking in Class" = false := by decide
        have hr : recognizedLabel "Talking in Class" = true := by decide
        simp only [h2, hr]
        simp [h1, hp]
        omega
      · by_cases h3 : r.activity = "Sleeping"
        · have hp : phoneBucketHit "Sleeping" = false := by decide
          have hr : recognizedLabel "Sleeping" = true := by decide
          simp only [h3, hr]
          simp [h1, h2, hp]
          omega
        · by_cases h5 : strIncludes r.activity "Phone" = true
          · have hp : phoneBucketHit r.activity = true := by
              simp [phoneBucketHit, h1, h2, h3, h5]
            have hr : recognizedLabel r.activity = true := by
              simp [recognizedLabel, h5]
            simp [h1, h2, h3, hp, hr]
            omega
          · have h5f : strIncludes r.activity "Phone" = false := by
              revert h5; cases strIncludes r.activity "Phone" <;> simp
            have hp : ¬ phoneBucketHit r.activity = true := by
              simp [phoneBucketHit, h5f]
            have hr : ¬ recognizedLabel r.activity = true := by
              simp [recognizedLabel, h1, h2, h3, h5f]
            simp [h1, h2, h3, hp, hr]
            omega

set_option maxRecDepth 2000 in
/-- C4 is false as stated: the JS `in` operator consults the prototype
chain, so a record labelled with the inherited `Object.prototype` key
`"toString"` takes the `counts[activity]++` branch, which installs an own
`NaN` entry, and `Object.entries` then returns five pairs, not four. -/
theorem claim_C4_counterexample :
    getBehaviorBreakdown [recToString] =
      [("Studying/Attentive", some 0), ("Talking in Class", some 0),
       ("Sleeping", some 0), ("Phone", some 0), ("toString", none)] ∧
    (getBehaviorBreakdown [recToString]).length ≠ 4 := by
  constructor
  · decide
  · decide

/-- C4 (amended): when no record's label names an inherited
`Object.prototype` data property, the breakdown is exactly the four labels
in fixed order with exact-match counts (plus the `Phone` substring
fallback); in general the first four pairs are always those and every
further pair is a polluted `Object.prototype` key valued `NaN`; each label
hits at most one bucket; the bucket total is at most the record count, with
equality exactly when every record's label is recognised. -/
theorem claim_C4_amended : ∀ records : List ActivityRecord,
    ((∀ r ∈ records, r.activity ∉ protoDataKeys) →
      getBehaviorBreakdown records =
        [("Studying/Attentive", some (records.filter fun r =>
            decide (r.activity = "Studying/Attentive")).length),
         ("Talking in Class", some (records.filter fun r =>
            decide (r.activity = "Talking in Class")).length),
         ("Sleeping", some (records.filter fun r =>
            decide (r.activity = "Sleeping")).length),
         ("Phone", some (records.filter fun r =>
            phoneBucketHit r.activity).length)]) ∧
    (getBehaviorBreakdown records).take 4 =
      [("Studying/Attentive", some (records.filter fun r =>
          decide (r.activity = "Studying/Attentive")).length),
       ("Talking in Class", some (records.filter fun r =>
          decide (r.activity = "Talking in Class")).length),
       ("Sleeping", some (records.filter fun r =>
          decide (r.activity = "Sleeping")).length),
       ("Phone", some (records.filter fun r =>
          phoneBucketHit r.activity).length)] ∧
    (∀ p ∈ (getBehaviorBreakdown records).drop 4,
      p.2 = none ∧ p.1 ∈ protoDataKeys) ∧
    (∀ a : String, bucketHits a ≤ 1) ∧
    ((getBehaviorBreakdown records).map (fun p => p.2.getD 0)).sum ≤
      records.length ∧
    (((getBehaviorBreakdown records).map (fun p => p.2.getD 0)).sum =
        records.length ↔
      ∀ r ∈ records, recognizedLabel r.activity = true) := by
  intro records
  obtain ⟨b1, b2, b3, b4, b5⟩ := foldl_breakdown records ⟨0, 0, 0, 0, []⟩ (by simp)
  have hstruct : getBehaviorBreakdown records =
      [("Studying/Attentive", some (records.filter fun r =>
          decide (r.activity = "Studying/Attentive")).length),
       ("Talking in Class", some (records.filter fun r =>
          decide (r.activity = "Talking in Class")).length),
       ("Sleeping", some (records.filter fun r =>
          decide (r.activity = "Sleeping")).length),
       ("Phone", some (records.filter fun r =>
          phoneBucketHit r.activity).length)] ++
      (records.foldl breakdownStep ⟨0, 0, 0, 0, []⟩).polluted.map
        (fun k => (k, (none : Option Nat))) := by
    simp only [getBehaviorBreakdown]
    rw [b1, b2, b3, b4]
    simp
  have htake : (getBehaviorBreakdown records).take 4 =
      [("Studying/Attentive", some (records.filter fun r =>
          decide (r.activity = "Studying/Attentive")).length),
       ("Talking in Class", some (records.filter fun r =>
          decide (r.activity = "Talking in Class")).length),
       ("Sleeping", some (records.filter fun r =>
          decide (r.activity = "Sleeping")).length),
       ("Phone", some (records.filter fun r =>
          phoneBucketHit r.activity).length)] := by
    rw [hstruct]
    rfl
  have hdrop : (getBehaviorBreakdown records).drop 4 =
      (records.foldl breakdownStep ⟨0, 0, 0, 0, []⟩).polluted.map
        (fun k => (k, (none : Option Nat))) := by
    rw [hstruct]
    rfl
  have hsum : ((getBehaviorBreakdown records).map (fun p => p.2.getD 0)).sum =
      (records.filter fun r => recognizedLabel r.activity).length := by
    rw [hstruct, List.map_append, List.sum_append]
    have hz : (((records.foldl breakdownStep ⟨0, 0, 0, 0, []⟩).polluted.map
        (fun k => (k, (none : Option Nat)))).map (fun p => p.2.getD 0)).sum = 0 := by
      refine List.sum_eq_zero ?_
      intro x hx
      rcases List.mem_map.mp hx with ⟨p, hp, rfl⟩
      rcases List.mem_map.mp hp with ⟨k, hk, rfl⟩
      rfl
    rw [hz]
    simp only [List.map_cons, List.map_nil, List.sum_cons, List.sum_nil,
      Option.getD_some]
    rw [← four_filter_sum records]
    omega
  refine ⟨?_, htake, ?_, bucketHits_le_one, ?_, ?_⟩
  · intro h
    rw [hstruct, foldl_breakdown_clean records _ h]
    simp
  · intro p hp
    rw [hdrop] at hp
    rcases List.mem_map.mp hp with ⟨k, hk, rfl⟩
    exact ⟨rfl, b5 k hk⟩
  · rw [hsum]
    exact List.length_filter_le _ _
  · rw [hsum]
    exact filter_length_eq_iff _ records

/-- Witness for the amended C4 at a one-record input free of prototype
keys. -/
theorem claim_C4_amended_witness :
    (∀ r ∈ [recSleep], r.activity ∉ protoDataKeys) ∧
    getBehaviorBreakdown [recSleep] =
      [("Studying/Attentive", some 0), ("Talking in Class", some 0),
       ("Sleeping", some 1), ("Phone", some 0)] := by
  refine ⟨by decide, ?_⟩
  rw [(claim_C4_amended [recSleep]).1 (by decide)]
  decide

/-! ### Time-series bucket lemmas -/

theorem bumpBucket_find (k : String) (att : Bool) :
    ∀ (acc : List (String × Nat × Nat)) (q : String),
    findBucket (bumpBucket k att acc) q =
      if q = k then
        match findBucket acc k with
        | some b => some (b.1, b.2.1 + 1, if att then b.2.2 + 1 else b.2.2)
        | none => some (k, 1, if att then 1 else 0)
      else findBucket acc q := by
  intro acc
  induction acc with
  | nil =>
    intro q
    by_cases hq : q = k
    · rw [if_pos hq]
      show List.find? _ [(k, 1, if att then 1 else 0)] = _
      rw [List.find?_cons_of_pos _ (by simp [hq])]
      rfl
    · rw [if_neg hq]
      show List.find? _ [(k, 1, if att then 1 else 0)] = _
      rw [List.find?_cons_of_neg _ (by simp; exact fun h => hq h.symm)]
      rfl
  | cons b bs ih =>
    intro q
    by_cases hb : b.1 = k
    · rw [show bumpBucket k att (b :: bs) =
        (b.1, b.2.1 + 1, if att then b.2.2 + 1 else b.2.2) :: bs from by
          simp [bumpBucket, hb]]
      by_cases hq : q = k
      · rw [if_pos hq]
        rw [show findBucket (b :: bs) k = some b from by
          rw [findBucket]
          exact List.find?_cons_of_pos _ (by simp [hb])]
        rw [findBucket, List.find?_cons_of_pos _ (by simp [hb, hq])]
      · rw [if_neg hq]
        have hbq : ¬ b.1 = q := fun h => hq ((hb.symm.trans h).symm)
        rw [findBucket, List.find?_cons_of_neg _ (by simp [hbq])]
        rw [show findBucket (b :: bs) q = List.find? (fun x => decide (x.1 = q)) bs
          from by
            rw [findBucket]
            rw [List.find?_cons_of_neg _ (by simp [hbq])]]
    · rw [show bumpBucket k att (b :: bs) = b :: bumpBucket k att bs from by
        simp [bumpBucket, hb]]
      by_cases hbq : b.1 = q
      · have hq : ¬ q = k := fun h => hb (hbq.trans h)
        rw [if_neg hq]
        rw [findBucket, List.find?_cons_of_pos _ (by simp [hbq])]
        rw [show findBucket (b :: bs) q = some b from by
          rw [findBucket]
          exact List.find?_cons_of_pos _ (by simp [hbq])]
      · rw [findBucket, List.find?_cons_of_neg _ (by simp [hbq])]
        have h1 : findBucket (b :: bs) k = findBucket bs k := by
          rw [findBucket, List.find?_cons_of_neg _ (by simp [hb]), findBucket]
        have h2 : findBucket (b :: bs) q = findBucket bs q := by
          rw [findBucket, List.find?_cons_of_neg _ (by simp [hbq]), findBucket]
        rw [h1, h2]
        exact ih q

theorem bumpBucket_keys (k : String) (att : Bool) :
    ∀ acc : List (String × Nat × Nat),
    (bumpBucket k att acc).map Prod.fst =
      if k ∈ acc.map Prod.fst then acc.map Prod.fst
      else acc.map Prod.fst ++ [k] := by
  intro acc
  induction acc with
  | nil => simp [bumpBucket]
  | cons b bs ih =>
    by_cases hb : b.1 = k
    · simp [bumpBucket, hb]
    · have hb' : ¬ k = b.1 := fun h => hb h.symm
      simp only [bumpBucket, if_neg hb, List.map_cons, ih]
      by_cases hmem : k ∈ bs.map Prod.fst
      · simp [hmem, hb']
      · simp [hmem, hb']

theorem bumpBucket_pos (k : String) (att : Bool) :
    ∀ acc : List (String × Nat × Nat), (∀ b ∈ acc, 1 ≤ b.2.1) →
    ∀ b ∈ bumpBucket k att acc, 1 ≤ b.2.1 := by
  intro acc
  induction acc with
  | nil =>
    intro _ b hb
    simp [bumpBucket] at hb
    simp [hb]
  | cons a as ih =>
    intro hall b hb
    by_cases ha : a.1 = k
    · rw [show bumpBucket k att (a :: as) =
        (a.1, a.2.1 + 1, if att then a.2.2 + 1 else a.2.2) :: as from by
          simp [bumpBucket, ha]] at hb
      rcases List.mem_cons.mp hb with rfl | hmem
      · simp
      · exact hall b (List.mem_cons_of_mem a hmem)
    · rw [show bumpBucket k att (a :: as) = a :: bumpBucket k att as from by
        simp [bumpBucket, ha]] at hb
      rcases List.mem_cons.mp hb with rfl | hmem
      · exact hall _ (by simp)
      · exact ih (fun x hx => hall x (List.mem_cons_of_mem a hx)) b hmem

theorem foldl_bucket_spec :
    ∀ (rs : List ActivityRecord) (acc : List (String × Nat × Nat)) (i : Nat)
      (k : String),
    (findBucket (rs.foldl (bucketStep i) acc) k = none ↔
      (findBucket acc k = none ∧
        (rs.filter fun r => decide (bucketKey r.timestamp i = k)) = [])) ∧
    bucketTotals (findBucket (rs.foldl (bucketStep i) acc) k) =
      ((bucketTotals (findBucket acc k)).1 +
        (rs.filter fun r => decide (bucketKey r.timestamp i = k)).length,
       (bucketTotals (findBucket acc k)).2 +
        (rs.filter fun r => decide (bucketKey r.timestamp i = k ∧
          r.activity = "Studying/Attentive")).length) := by
  intro rs
  induction rs with
  | nil => intro acc i k; simp
  | cons r rs ih =>
    intro acc i k
    rw [List.foldl_cons]
    simp only [List.filter_cons]
    obtain ⟨ih1, ih2⟩ := ih (bucketStep i acc r) i k
    have hfind : findBucket (bucketStep i acc r) k =
        if k = bucketKey r.timestamp i then
          match findBucket acc (bucketKey r.timestamp i) with
          | some b => some (b.1, b.2.1 + 1,
              if decide (r.activity = "Studying/Attentive") = true
              then b.2.2 + 1 else b.2.2)
          | none => some (bucketKey r.timestamp i, 1,
              if decide (r.activity = "Studying/Attentive") = true then 1 else 0)
        else findBucket acc k := by
      have h := bumpBucket_find (bucketKey r.timestamp i)
        (decide (r.activity = "Studying/Attentive")) acc k
      simpa using h
    by_cases hk : bucketKey r.timestamp i = k
    · subst hk
      rw [if_pos rfl] at hfind
      have hc1 : decide (bucketKey r.timestamp i = bucketKey r.timestamp i) = true := by
        simp
      rw [if_pos hc1]
      constructor
      · rw [ih1, hfind]
        have hsome : (match findBucket acc (bucketKey r.timestamp i) with
            | some b => some (b.1, b.2.1 + 1,
                if decide (r.activity = "Studying/Attentive") = true
                then b.2.2 + 1 else b.2.2)
            | none => some (bucketKey r.timestamp i, 1,
                if decide (r.activity = "Studying/Attentive") = true then 1 else 0)) ≠
            (none : Option (String × Nat × Nat)) := by
          cases hfb : findBucket acc (bucketKey r.timestamp i) <;> simp
        constructor
        · rintro ⟨hn, _⟩
          exact absurd hn hsome
        · rintro ⟨_, hcons⟩
          cases hcons
      · rw [ih2, hfind]
        by_cases hatt : r.activity = "Studying/Attentive"
        · have hc2 : decide (bucketKey r.timestamp i = bucketKey r.timestamp i ∧
              r.activity = "Studying/Attentive") = true := by simp [hatt]
          rw [if_pos hc2]
          cases hfb : findBucket acc (bucketKey r.timestamp i) with
          | none => simp [bucketTotals, hatt]; omega
          | some b => simp [bucketTotals, hatt]; omega
        · have hc2 : ¬ decide (bucketKey r.timestamp i = bucketKey r.timestamp i ∧
              r.activity = "Studying/Attentive") = true := by simp [hatt]
          rw [if_neg hc2]
          cases hfb : findBucket acc (bucketKey r.timestamp i) with
          | none => simp [bucketTotals, hatt]; omega
          | some b => simp [bucketTotals, hatt]; omega
    · have hkk : ¬ k = bucketKey r.timestamp i := fun h => hk h.symm
      rw [if_neg hkk] at hfind
      have hc1 : ¬ decide (bucketKey r.timestamp i = k) = true := by simp [hk]
      have hc2 : ¬ decide (bucketKey r.timestamp i = k ∧
          r.activity = "Studying/Attentive") = true := by simp [hk]
      rw [if_neg hc1, if_neg hc2]
      exact ⟨by rw [ih1, hfind], by rw [ih2, hfind]⟩

theorem foldl_bucket_keys_nodup :
    ∀ (rs : List ActivityRecord) (acc : List (String × Nat × Nat)) (i : Nat),
    (acc.map Prod.fst).Nodup → ((rs.foldl (bucketStep i) acc).map Prod.fst).Nodup := by
  intro rs
  induction rs with
  | nil => intro acc i h; simpa using h
  | cons r rs ih =>
    intro acc i h
    rw [List.foldl_cons]
    refine ih _ i ?_
    rw [show bucketStep i acc r = bumpBucket (bucketKey r.timestamp i)
      (decide (r.activity = "Studying/Attentive")) acc from rfl]
    rw [bumpBucket_keys]
    by_cases hmem : bucketKey r.timestamp i ∈ acc.map Prod.fst
    · rw [if_pos hmem]; exact h
    · rw [if_neg hmem]
      refine List.nodup_append.mpr ⟨h, List.nodup_singleton _, ?_⟩
      intro x hx hxk
      rw [List.mem_singleton] at hxk
      exact hmem (hxk ▸ hx)

theorem foldl_bucket_pos :
    ∀ (rs : List ActivityRecord) (acc : List (String × Nat × Nat)) (i : Nat),
    (∀ b ∈ acc, 1 ≤ b.2.1) → ∀ b ∈ rs.foldl (bucketStep i) acc, 1 ≤ b.2.1 := by
  intro rs
  induction rs with
  | nil => intro acc i h; simpa using h
  | cons r rs ih =>
    intro acc i h
    rw [List.foldl_cons]
    exact ih _ i (bumpBucket_pos _ _ acc h)

/-! ### Claims about the time series and empty input -/

/-- C5: every emitted pair carries the rounded attentive percentage of the
records whose timestamp falls in its bucket (bucket key = hour, minute,
seconds floored to a multiple of the interval, two digits each); a key is
emitted iff some record maps to it; pairs appear in strictly ascending
lexicographic key order. -/
theorem claim_C5 : ∀ (records : List ActivityRecord) (i : Nat), 0 < i →
    (∀ p ∈ getEngagementOverTime records i,
      p.2 = jsRound
        ((records.filter fun r => decide (bucketKey r.timestamp i = p.1 ∧
          r.activity = "Studying/Attentive")).length * 100)
        ((records.filter fun r => decide (bucketKey r.timestamp i = p.1)).length)) ∧
    (∀ k : String, (∃ v, (k, v) ∈ getEngagementOverTime records i) ↔
      k ∈ records.map (fun r => bucketKey r.timestamp i)) ∧
    (getEngagementOverTime records i).Pairwise (fun p q => strLt p.1 q.1) := by
  intro records i _
  have hkeysnodup : ((engagementBuckets records i).map Prod.fst).Nodup := by
    have h := foldl_bucket_keys_nodup records [] i (by simp)
    simpa [engagementBuckets] using h
  refine ⟨?_, ?_, ?_⟩
  · intro p hp
    rw [show getEngagementOverTime records i = sortBy timeLe
      ((engagementBuckets records i).map
        (fun b => (b.1, jsRound (b.2.2 * 100) b.2.1))) from rfl] at hp
    have hp2 := (sortBy_perm timeLe _).mem_iff.mp hp
    rcases List.mem_map.mp hp2 with ⟨b, hb, rfl⟩
    have hfb : findBucket (engagementBuckets records i) b.1 = some b :=
      find_of_mem_nodup Prod.fst _ hkeysnodup b hb
    have htot := (foldl_bucket_spec records [] i b.1).2
    rw [show records.foldl (bucketStep i) [] = engagementBuckets records i
      from rfl, hfb] at htot
    simp only [bucketTotals] at htot
    rw [Prod.mk.injEq] at htot
    obtain ⟨ht, ha⟩ := htot
    show jsRound (b.2.2 * 100) b.2.1 = _
    rw [ht, ha]
    simp [findBucket, List.find?_nil]
  · intro k
    constructor
    · rintro ⟨v, hkv⟩
      rw [show getEngagementOverTime records i = sortBy timeLe
        ((engagementBuckets records i).map
          (fun b => (b.1, jsRound (b.2.2 * 100) b.2.1))) from rfl] at hkv
      have hkv2 := (sortBy_perm timeLe _).mem_iff.mp hkv
      rcases List.mem_map.mp hkv2 with ⟨b, hb, heq⟩
      have hk1 : b.1 = k := by
        have h := congrArg Prod.fst heq
        simpa using h
      have hfb : findBucket (engagementBuckets records i) b.1 = some b :=
        find_of_mem_nodup Prod.fst _ hkeysnodup b hb
      have hiff := (foldl_bucket_spec records [] i b.1).1
      rw [show records.foldl (bucketStep i) [] = engagementBuckets records i
        from rfl] at hiff
      by_cases hfil : (records.filter fun r =>
          decide (bucketKey r.timestamp i = b.1)) = []
      · have hnone : findBucket (engagementBuckets records i) b.1 = none :=
          hiff.mpr ⟨rfl, hfil⟩
        rw [hfb] at hnone
        cases hnone
      · obtain ⟨x, hx⟩ := List.exists_mem_of_ne_nil _ hfil
        obtain ⟨hx1, hx2⟩ := List.mem_filter.mp hx
        rw [decide_eq_true_eq] at hx2
        exact List.mem_map.mpr ⟨x, hx1, by rw [hx2, hk1]⟩
    · intro hk
      rcases List.mem_map.mp hk with ⟨r, hr, hkey⟩
      have hfil : (records.filter fun r =>
          decide (bucketKey r.timestamp i = k)) ≠ [] := by
        intro hnil
        have hmem : r ∈ records.filter fun r =>
            decide (bucketKey r.timestamp i = k) :=
          List.mem_filter.mpr ⟨hr, by simp [hkey]⟩
        rw [hnil] at hmem
        cases hmem
      have hiff := (foldl_bucket_spec records [] i k).1
      rw [show records.foldl (bucketStep i) [] = engagementBuckets records i
        from rfl] at hiff
      cases hfb : findBucket (engagementBuckets records i) k with
      | none => exact absurd (hiff.mp hfb).2 hfil
      | some b =>
        have hb : b ∈ engagementBuckets records i := List.mem_of_find?_eq_some hfb
        have hbk : b.1 = k := by
          have h := List.find?_some hfb
          simpa using h
        refine ⟨jsRound (b.2.2 * 100) b.2.1, ?_⟩
        rw [show getEngagementOverTime records i = sortBy timeLe
          ((engagementBuckets records i).map
            (fun b => (b.1, jsRound (b.2.2 * 100) b.2.1))) from rfl]
        rw [(sortBy_perm timeLe _).mem_iff]
        exact List.mem_map.mpr ⟨b, hb, by rw [hbk]⟩
  · have hmapkeys : (((engagementBuckets records i).map
        (fun b => (b.1, jsRound (b.2.2 * 100) b.2.1))).map Prod.fst) =
        (engagementBuckets records i).map Prod.fst := by
      rw [List.map_map]
      rfl
    have hnd2 : (((engagementBuckets records i).map
        (fun b => (b.1, jsRound (b.2.2 * 100) b.2.1))).map Prod.fst).Nodup := by
      rw [hmapkeys]
      exact hkeysnodup
    have hQ : ((engagementBuckets records i).map
        (fun b => (b.1, jsRound (b.2.2 * 100) b.2.1))).Pairwise
        (fun p q => p.1 ≠ q.1) := List.pairwise_map.mp hnd2
    refine sortBy_pair ?_ ?_ ?_ ?_ _ hQ
    · intro a b h
      simp only [timeLe, decide_eq_false_iff_not, not_not] at h
      simp only [timeLe, decide_eq_true_eq]
      have h2 := (charsCmp_gt_iff a.1.data b.1.data).mp h
      intro hgt
      have h3 := (charsCmp_gt_iff b.1.data a.1.data).mp hgt
      rw [show strCmp a.1 b.1 = charsCmp a.1.data b.1.data from rfl] at h
      rw [h] at h3
      cases h3
    · intro a b h
      simp only [timeLe, decide_eq_false_iff_not, not_not] at h
      exact (charsCmp_gt_iff b.1.data a.1.data).mp h
    · intro a b h hq
      simp only [timeLe, decide_eq_true_eq] at h
      show charsCmp a.1.data b.1.data = Ordering.lt
      cases hc : charsCmp a.1.data b.1.data with
      | lt => rfl
      | eq => exact absurd (String.ext (charsCmp_eq _ _ hc)) hq
      | gt => exact absurd hc h
    · intro x t b h1 h2
      simp only [timeLe, decide_eq_false_iff_not, not_not] at h1 ⊢
      simp only [timeLe, decide_eq_true_eq] at h2
      have hx : charsCmp x.1.data t.1.data = Ordering.lt :=
        (charsCmp_gt_iff t.1.data x.1.data).mp h1
      show charsCmp b.1.data x.1.data = Ordering.gt
      rw [charsCmp_gt_iff]
      cases hc : charsCmp t.1.data b.1.data with
      | lt => exact charsCmp_lt_trans _ _ _ hx hc
      | eq =>
        have he := charsCmp_eq _ _ hc
        rw [← he]
        exact hx
      | gt => exact absurd hc h2

/-- Witness for C5: the sortedness clause at a one-record input with the
default ten-second interval. -/
theorem claim_C5_witness :
    0 < 10 ∧ (getEngagementOverTime [recSleep] 10).Pairwise
      (fun p q => strLt p.1 q.1) :=
  ⟨by decide, (claim_C5 [recSleep] 10 (by decide)).2.2⟩

/-- C9: empty input gives an empty summary list, all-zero breakdown buckets
in fixed order, and an empty engagement series; every percentage denominator
is positive because summaries and buckets only exist for at least one
record. -/
theorem claim_C9 :
    calculateStudentSummaries [] = [] ∧
    getBehaviorBreakdown [] =
      [("Studying/Attentive", some 0), ("Talking in Class", some 0),
       ("Sleeping", some 0), ("Phone", some 0)] ∧
    (∀ i : Nat, getEngagementOverTime [] i = []) ∧
    (∀ records : List ActivityRecord, ∀ s ∈ accumulate records,
      1 ≤ s.totalMinutes) ∧
    (∀ (records : List ActivityRecord) (i : Nat),
      ∀ b ∈ engagementBuckets records i, 1 ≤ b.2.1) := by
  refine ⟨rfl, rfl, fun i => rfl, ?_, ?_⟩
  · intro records s hs
    obtain ⟨c1, _, _, _, _, _, _, _, c9⟩ := accumulate_counts records s hs
    rw [c1]
    exact c9
  · intro records i b hb
    exact foldl_bucket_pos records [] i (by simp) b hb

/-- Witness for C9: positive frame counts at a one-record input. -/
theorem claim_C9_witness :
    1 ≤ ((accumulate [recAtt]).headD (emptySummary none)).totalMinutes := by
  have hne : accumulate [recAtt] ≠ [] := by decide
  exact claim_C9.2.2.2.1 [recAtt] _ (headD_mem _ hne)

/-! ### Loader lemmas and claims -/

theorem parseLine_of_three (l : String) (h : 3 ≤ (jsSplit l ',').length) :
    parseLine l = Except.ok (mkRecord l) := by
  unfold parseLine mkRecord
  cases hx : (jsSplit l ',').get? 2 with
  | none =>
    rw [List.get?_eq_none] at hx
    omega
  | some activity =>
    rw [List.get?_eq_getElem?] at hx
    simp [hx]

theorem parseLines_all_ok :
    ∀ ls : List String, (∀ l ∈ ls, 3 ≤ (jsSplit l ',').length) →
    parseLines ls = Except.ok (ls.map mkRecord) := by
  intro ls
  induction ls with
  | nil => intro _; rfl
  | cons l ls ih =>
    intro h
    simp only [parseLines, parseLine_of_three l (h l (by simp)),
      ih (fun x hx => h x (List.mem_cons_of_mem l hx)), List.map_cons]

set_option maxRecDepth 10000 in
/-- C7 is false as stated: a data line with fewer than three
comma-separated fields leaves the destructured `activity` field
`undefined`, `activity.trim()` throws, and the catch-all returns the empty
sequence — discarding the well-formed line's record that, without the
malformed line, is returned. -/
theorem claim_C7_counterexample :
    (loadActivityLog (Except.ok
      "time,student,activity,conf\n2024-01-01T09:00:00Z,3,Sleeping,0.5\nbad,7")).1
      = [] ∧
    (loadActivityLog (Except.ok
      "time,student,activity,conf\n2024-01-01T09:00:00Z,3,Sleeping,0.5")).1.length
      = 1 := by
  constructor
  · decide
  · decide

/-- C7 (amended): a data line with at least three comma-separated fields is
never skipped — one record per data line — and a line with exactly three
fields yields a record whose `confidence` is `NaN`; lines with fewer than
three fields abort the whole parse instead. -/
theorem claim_C7_amended : ∀ text : String,
    (∀ l ∈ dataLines text, 3 ≤ (jsSplit l ',').length) →
    loadActivityLog (Except.ok text) = ((dataLines text).map mkRecord, false) ∧
    (∀ l ∈ dataLines text, (jsSplit l ',').length = 3 →
      (mkRecord l).confidence = none) := by
  intro text h
  constructor
  · simp only [loadActivityLog]
    rw [show parseActivityLog text = parseLines (dataLines text) from rfl]
    rw [parseLines_all_ok (dataLines text) h]
  · intro l hl hlen
    have hnone : (jsSplit l ',').get? 3 = none := List.get?_eq_none.mpr (by omega)
    rw [show (mkRecord l).confidence = jsParseFloat ((jsSplit l ',').get? 3)
      from rfl, hnone]
    rfl

set_option maxRecDepth 10000 in
/-- Witness for the amended C7 at a concrete three-field data line. -/
theorem claim_C7_amended_witness :
    (∀ l ∈ dataLines "h\n2024-01-01T09:00:00Z,3,Sleeping",
      3 ≤ (jsSplit l ',').length) ∧
    loadActivityLog (Except.ok "h\n2024-01-01T09:00:00Z,3,Sleeping") =
      ((dataLines "h\n2024-01-01T09:00:00Z,3,Sleeping").map mkRecord, false) :=
  ⟨by decide, (claim_C7_amended "h\n2024-01-01T09:00:00Z,3,Sleeping" (by decide)).1⟩

/-- C8: the loader's whole body sits in a `try`/`catch`, so for every fetch
outcome it returns normally: any failure (fetch error or parse throw) gives
the empty sequence plus the logged diagnostic, and otherwise it returns the
parsed records with no diagnostic — it never raises to its caller. -/
theorem claim_C8 : ∀ fetched : Except Unit String,
    (fetched = Except.error () → loadActivityLog fetched = ([], true)) ∧
    (∀ text, fetched = Except.ok text → parseActivityLog text = Except.error () →
      loadActivityLog fetched = ([], true)) ∧
    (∀ text records, fetched = Except.ok text →
      parseActivityLog text = Except.ok records →
      loadActivityLog fetched = (records, false)) := by
  intro fetched
  refine ⟨?_, ?_, ?_⟩
  · rintro rfl
    rfl
  · rintro text rfl hp
    simp [loadActivityLog, hp]
  · rintro text records rfl hp
    simp [loadActivityLog, hp]

/-- Witness for C8 at a failed fetch. -/
theorem claim_C8_witness : loadActivityLog (Except.error ()) = ([], true) :=
  (claim_C8 (Except.error ())).1 rfl
